import Mathlib

/-!
Shallow embedding of the tetra-bluestation bit-level PDU codec core:
the cursor bit-buffer, the Type-2 / Type-3 / Type-4 optional-element
codecs (`src/common/typed_pdu_fields.rs`), the parse-error taxonomy
(`src/common/pdu_parse_error.rs`), and the representative message codec
`UAttachDetachGroupIdentity`
(`src/entities/mm/pdus/u_attach_detach_group_identity.rs`).

Rust `&mut BitBuffer` state is threaded explicitly: every fallible
operation returns a `BufResult`, which carries the final buffer state on
both the success and the error path (as the Rust mutable borrow does).
-/

namespace Tetra

/-- Big-endian serialization of a natural number: `natToBits n v` is the
`n`-bit encoding of `v`, most-significant bit first (only the low `n`
bits of `v` are kept, as the Rust `write_bits` does). -/
def natToBits : Nat → Nat → List Bool
| 0, _ => []
| n+1, v => natToBits n (v / 2) ++ [v % 2 == 1]

/-- Big-endian deserialization: value of a bit list, most-significant
bit first. -/
def bitsToNat : List Bool → Nat
| [] => 0
| b :: t => (cond b 1 0) * 2 ^ t.length + bitsToNat t

/-- Modelled from the spec: the bit-addressable cursor buffer of
`src/common/bitbuffer.rs` (that file is not among the provided sources;
this follows spec section 4.1). `data` is the bit content in wire order,
most-significant bit of each octet first, and `pos` is the bit cursor. -/
structure BitBuffer where
data : List Bool
pos : Nat
deriving DecidableEq, Repr

namespace BitBuffer

/-- Bits remaining from the cursor to the end of the buffer. -/
def rem (b : BitBuffer) : List Bool := b.data.drop b.pos

/-- Modelled from the spec: `read_bits(n)` consumes and returns the next
`n` bits most-significant-bit first, or returns the empty result without
advancing the cursor if fewer than `n` bits remain. -/
def read_bits (b : BitBuffer) (n : Nat) : Option (Nat × BitBuffer) :=
if n ≤ b.data.length - b.pos then
  some (bitsToNat ((b.data.drop b.pos).take n), ⟨b.data, b.pos + n⟩)
else none

/-- Modelled from the spec: `peek_bits(n)` is `read_bits` without moving
the cursor. -/
def peek_bits (b : BitBuffer) (n : Nat) : Option Nat :=
if n ≤ b.data.length - b.pos then
  some (bitsToNat ((b.data.drop b.pos).take n))
else none

/-- Modelled from the spec: `peek_bits_posoffset(skip, n)` peeks `n` bits
located `skip` bits past the cursor, without moving it. -/
def peek_bits_posoffset (b : BitBuffer) (skip n : Nat) : Option Nat :=
if skip + n ≤ b.data.length - b.pos then
  some (bitsToNat ((b.data.drop (b.pos + skip)).take n))
else none

/-- Modelled from the spec: `seek_rel(n)` advances the cursor by `n` bits
without reading. -/
def seek_rel (b : BitBuffer) (n : Nat) : BitBuffer := ⟨b.data, b.pos + n⟩

/-- Modelled from the spec: `get_raw_pos()` returns the exact cursor. -/
def get_raw_pos (b : BitBuffer) : Nat := b.pos

/-- Modelled from the spec: `set_raw_pos(pos)` restores an exact cursor,
used for the write-then-backfill of Type-4 length fields. -/
def set_raw_pos (b : BitBuffer) (p : Nat) : BitBuffer := ⟨b.data, p⟩

/-- Modelled from the spec: `write_bits(value, n)` writes the low `n`
bits of `value` most-significant-bit first at the cursor, overwriting
bits already there and growing the buffer as needed (autoexpand); the
cursor ends after the written region. -/
def write_bits (b : BitBuffer) (v n : Nat) : BitBuffer :=
⟨(b.data ++ List.replicate (b.pos - b.data.length) false).take b.pos
   ++ natToBits n v ++ b.data.drop (b.pos + n),
 b.pos + n⟩

/-- Modelled from the spec: `write_bit(value)` appends one bit. -/
def write_bit (b : BitBuffer) (v : Nat) : BitBuffer := b.write_bits v 1

/-- Modelled from the spec: `from_bitstr` builds a buffer from a textual
string of literal 0 and 1 characters, one per bit in wire order. -/
def from_bitstr (s : String) : BitBuffer := ⟨s.toList.map (fun c => c == '1'), 0⟩

/-- Modelled from the spec: `to_bitstr` prints exactly the bits of the
buffer, one 0 or 1 character per bit in wire order. -/
def to_bitstr (b : BitBuffer) : String :=
String.mk (b.data.map (fun x => cond x '1' '0'))

end BitBuffer

/-- Error taxonomy of `src/common/pdu_parse_error.rs` (field names are
the Rust static strings). -/
inductive PduParseError where
| invalidPduType (expected found : Nat)
| bufferEnded (field : String)
| invalidObitValue
| invalidType3ElemId (found : Nat)
| invalidValue (field : String) (value : Nat)
deriving DecidableEq, Repr

/-- Result of a fallible operation on a `&mut BitBuffer`: the buffer
state is carried on both paths, as the Rust mutable borrow leaves the
buffer in whatever state the callee reached before returning. -/
inductive BufResult (ε α : Type) where
| ok (a : α) (b : BitBuffer)
| err (e : ε) (b : BitBuffer)
deriving DecidableEq, Repr

/-- Buffer state carried by a `BufResult`, on either path. -/
def BufResult.buf : BufResult ε α → BitBuffer
| .ok _ b => b
| .err _ b => b

/-- Embedding of `BitBuffer::read_field(n, field_name)`: `read_bits`
with the shortfall reported as `BufferEnded` naming the field. -/
def BitBuffer.read_field (b : BitBuffer) (n : Nat) (field : String) :
    BufResult PduParseError Nat :=
match b.read_bits n with
| some (v, b') => .ok v b'
| none => .err (.bufferEnded field) b

namespace delimiters

/-- Embedding of `delimiters::read_obit`. -/
def read_obit (b : BitBuffer) : BufResult PduParseError Bool :=
match b.read_field 1 ("obit") with
| .ok v b' => .ok (v == 1) b'
| .err e b' => .err e b'

/-- Embedding of `delimiters::write_obit`. -/
def write_obit (b : BitBuffer) (v : Nat) : BitBuffer := b.write_bit v

/-- Embedding of `delimiters::read_pbit`. -/
def read_pbit (b : BitBuffer) : BufResult PduParseError Bool :=
match b.read_field 1 ("pbit") with
| .ok v b' => .ok (v == 1) b'
| .err e b' => .err e b'

/-- Embedding of `delimiters::write_pbit`. -/
def write_pbit (b : BitBuffer) (v : Nat) : BitBuffer := b.write_bit v

/-- Embedding of `delimiters::read_mbit`. -/
def read_mbit (b : BitBuffer) : BufResult PduParseError Bool :=
match b.read_field 1 ("mbit") with
| .ok v b' => .ok (v == 1) b'
| .err e b' => .err e b'

/-- Embedding of `delimiters::write_mbit`. -/
def write_mbit (b : BitBuffer) (v : Nat) : BitBuffer := b.write_bit v

end delimiters

namespace type2

/-- Embedding of `type2::parse`: read the p-bit; absent on 0; on 1 read
`num_bits` bits via `read_field` under the supplied field name. -/
def parse (b : BitBuffer) (num_bits : Nat) (field_name : String) :
    BufResult PduParseError (Option Nat) :=
match delimiters.read_pbit b with
| .ok true b' =>
  match b'.read_field num_bits field_name with
  | .ok v b'' => .ok (some v) b''
  | .err e b'' => .err e b''
| .ok false b' => .ok none b'
| .err e b' => .err e b'

/-- Embedding of `type2::parse_struct`: p-bit gating with a delegated
value decoder. -/
def parse_struct (b : BitBuffer)
    (pf : BitBuffer → BufResult PduParseError T) :
    BufResult PduParseError (Option T) :=
match delimiters.read_pbit b with
| .ok true b' =>
  match pf b' with
  | .ok v b'' => .ok (some v) b''
  | .err e b'' => .err e b''
| .ok false b' => .ok none b'
| .err e b' => .err e b'

/-- Embedding of `type2::write`. -/
def write (b : BitBuffer) (value : Option Nat) (len : Nat) : BitBuffer :=
match value with
| some v => (delimiters.write_pbit b 1).write_bits v len
| none => delimiters.write_pbit b 0

/-- Embedding of `type2::write_struct`. -/
def write_struct (b : BitBuffer) (value : Option T)
    (wf : T → BitBuffer → BufResult PduParseError Unit) :
    BufResult PduParseError Unit :=
match value with
| some v => wf v (delimiters.write_pbit b 1)
| none => .ok () (delimiters.write_pbit b 0)

end type2

namespace type34

/-- Embedding of `type34::Type34Err`. -/
inductive Type34Err where
| fieldNotPresent
| invalidId
| outOfBounds
deriving DecidableEq, Repr

/-- Embedding of `type34::check_peek_mbit`: peek the m-bit without
advancing. The source has a panic arm for any other peeked value; that
arm is modelled as returning `true` and `check_peek_mbit_panics` below
records exactly when it would run (never, see
`check_peek_mbit_panic_arm_unreachable`). -/
def check_peek_mbit (b : BitBuffer) : Except Type34Err Bool :=
match b.peek_bits 1 with
| some 0 => .error .fieldNotPresent
| some 1 => .ok true
| none => .error .outOfBounds
| some _ => .ok true

/-- Predicate that is true exactly when the panic arm of
`check_peek_mbit` would execute (a peeked 1-bit value other than 0/1). -/
def check_peek_mbit_panics (b : BitBuffer) : Bool :=
match b.peek_bits 1 with
| some 0 => false
| some 1 => false
| none => false
| some _ => true

/-- Embedding of `type34::check_peek_id`: peek the 4 identifier bits one
bit past the cursor without advancing. -/
def check_peek_id (b : BitBuffer) (expected_id : Nat) : Except Type34Err Unit :=
match b.peek_bits_posoffset 1 4 with
| none => .error .outOfBounds
| some id_bits =>
  if id_bits = expected_id then .ok () else .error .fieldNotPresent

/-- Embedding of `type34::parse_type3_generic`: probe m-bit and id, then
advance 5 bits, read the 11-bit length and that many payload bits. -/
def parse_type3_generic (b : BitBuffer) (expected_id : Nat) :
    BufResult Type34Err (Nat × Nat) :=
match check_peek_mbit b with
| .error e => .err e b
| .ok _ =>
  match check_peek_id b expected_id with
  | .error e => .err e b
  | .ok _ =>
    let b1 := b.seek_rel 5
    match b1.read_bits 11 with
    | none => .err .outOfBounds b1
    | some (len_bits, b2) =>
      match b2.read_bits len_bits with
      | none => .err .outOfBounds b2
      | some (data, b3) => .ok (len_bits, data) b3

/-- Embedding of `type34::parse_type3_struct`: same probing, then skip
the 11-bit length and delegate; a probe miss yields `none`, any delegate
failure is collapsed to `OutOfBounds`. -/
def parse_type3_struct (b : BitBuffer) (expected_id : Nat)
    (pf : BitBuffer → BufResult PduParseError T) :
    BufResult Type34Err (Option T) :=
match check_peek_mbit b with
| .error .fieldNotPresent => .ok none b
| .error e => .err e b
| .ok _ =>
  match check_peek_id b expected_id with
  | .error .fieldNotPresent => .ok none b
  | .error e => .err e b
  | .ok _ =>
    let b1 := b.seek_rel 5
    match b1.read_bits 11 with
    | none => .err .outOfBounds b1
    | some (_len_bits, b2) =>
      match pf b2 with
      | .ok value b3 => .ok (some value) b3
      | .err _ b3 => .err .outOfBounds b3

/-- Embedding of `type34::write_type34_header_generic`: m-bit 1 and the
4-bit element identifier. -/
def write_type34_header_generic (b : BitBuffer) (field_type : Nat) : BitBuffer :=
(delimiters.write_mbit b 1).write_bits field_type 4

/-- Embedding of `type34::write_type3_struct`: nothing at all when
absent, header then delegated payload when present. -/
def write_type3_struct (b : BitBuffer) (value : Option T) (field_id : Nat)
    (wf : T → BitBuffer → BufResult PduParseError Unit) :
    BufResult PduParseError Unit :=
match value with
| some elem => wf elem (write_type34_header_generic b field_id)
| none => .ok () b

/-- Embedding of `type34::parse_type4_header_generic`: probe m-bit and
id, advance 5 bits, read the 11-bit length then the 6-bit element count,
and return the count together with `length - 6` (a Rust `usize`
subtraction with no guard; `parse_type4_header_underflows` records when
it underflows). -/
def parse_type4_header_generic (b : BitBuffer) (expected_id : Nat) :
    BufResult Type34Err (Nat × Nat) :=
match check_peek_mbit b with
| .error e => .err e b
| .ok _ =>
  match check_peek_id b expected_id with
  | .error e => .err e b
  | .ok _ =>
    let b1 := b.seek_rel 5
    match b1.read_bits 11 with
    | none => .err .outOfBounds b1
    | some (len_bits, b2) =>
      match b2.read_bits 6 with
      | none => .err .outOfBounds b2
      | some (num_elems, b3) => .ok (num_elems, len_bits - 6) b3

/-- Predicate that is true exactly when the unguarded `len_bits - 6`
subtraction of `parse_type4_header_generic` underflows: the call reaches
the subtraction with a declared 11-bit length below 6. -/
def parse_type4_header_underflows (b : BitBuffer) (expected_id : Nat) : Bool :=
match check_peek_mbit b with
| .error _ => false
| .ok _ =>
  match check_peek_id b expected_id with
  | .error _ => false
  | .ok _ =>
    match (b.seek_rel 5).read_bits 11 with
    | none => false
    | some (len_bits, b2) =>
      match b2.read_bits 6 with
      | none => false
      | some (_, _) => len_bits < 6

/-- Element loop of `type34::parse_type4_struct`: run the delegate
`count` times, collapsing any delegate failure to `OutOfBounds`. -/
def parse_type4_elems (pf : BitBuffer → BufResult PduParseError T) :
    Nat → BitBuffer → BufResult Type34Err (List T)
| 0, b => .ok [] b
| n+1, b =>
  match pf b with
  | .err _ b' => .err .outOfBounds b'
  | .ok elem b' =>
    match parse_type4_elems pf n b' with
    | .ok elems b'' => .ok (elem :: elems) b''
    | .err e b'' => .err e b''

/-- Embedding of `type34::parse_type4_struct`: header probe and read,
then exactly `count` delegated element decodes; a probe miss yields
`none`. -/
def parse_type4_struct (b : BitBuffer) (expected_id : Nat)
    (pf : BitBuffer → BufResult PduParseError T) :
    BufResult Type34Err (Option (List T)) :=
match parse_type4_header_generic b expected_id with
| .ok (num_elems, _len_bits) b' =>
  match parse_type4_elems pf num_elems b' with
  | .ok elems b'' => .ok (some elems) b''
  | .err e b'' => .err e b''
| .err e b' =>
  if e = .fieldNotPresent then .ok none b' else .err e b'

/-- Element loop of `type34::write_type4_struct`: run the delegate
writer over every element in order. -/
def write_type4_elems (wf : T → BitBuffer → BufResult PduParseError Unit) :
    List T → BitBuffer → BufResult PduParseError Unit
| [], b => .ok () b
| e :: t, b =>
  match wf e b with
  | .ok _ b' => write_type4_elems wf t b'
  | .err er b' => .err er b'

/-- Embedding of `type34::write_type4_struct`: nothing when absent; when
present, header, a 17-bit zero placeholder, the elements, then seek back
and backfill the true 11-bit length (total bits written after the length
field minus the 6-bit count field is included, i.e. `pos_end -
pos_len_field - 11`) and the 6-bit element count, then seek forward. -/
def write_type4_struct (b : BitBuffer) (value : Option (List T)) (field_id : Nat)
    (wf : T → BitBuffer → BufResult PduParseError Unit) :
    BufResult PduParseError Unit :=
match value with
| none => .ok () b
| some elems =>
  let b1 := write_type34_header_generic b field_id
  let pos_len_field := b1.get_raw_pos
  let b2 := b1.write_bits 0 17
  match write_type4_elems wf elems b2 with
  | .err e b3 => .err e b3
  | .ok _ b3 =>
    let pos_end := b3.get_raw_pos
    let len_bits := pos_end - pos_len_field - 11
    let num_elems := elems.length
    let b4 := b3.set_raw_pos pos_len_field
    let b5 := b4.write_bits len_bits 11
    let b6 := b5.write_bits num_elems 6
    .ok () (b6.set_raw_pos pos_end)

end type34

/-- Modelled from the spec: the constant 4-bit PDU type code of
U-ATTACH/DETACH GROUP IDENTITY (`enums/mm_pdu_type_ul.rs` is not among
the provided sources; the value 0111 = 7 is fixed by the annotated test
vector in `u_attach_detach_group_identity.rs`). -/
def MmPduTypeUl.UAttachDetachGroupIdentityRaw : Nat := 7

namespace MmType34ElemIdUl

/-- Modelled from the spec: 4-bit MM uplink element identifier of the
Group report response Type-3 element (`enums/type34_elem_id_ul.rs` is
not among the provided sources; only its distinctness from the other two
identifiers below is load-bearing). -/
def GroupReportResponse : Nat := 9

/-- Modelled from the spec: 4-bit MM uplink element identifier of the
Group identity uplink Type-4 element; the value 8 is fixed by the
annotated test vector in `u_attach_detach_group_identity.rs`. -/
def GroupIdentityUplink : Nat := 8

/-- Modelled from the spec: 4-bit MM uplink element identifier of the
Proprietary Type-3 element. -/
def Proprietary : Nat := 15

end MmType34ElemIdUl

/-- Raw MM Type-3 field: element identifier, declared bit length and raw
payload value (`components/type34_fields.rs` is not among the provided
sources). -/
structure MmType3FieldUl where
field_type : Nat
len : Nat
data : Nat
deriving DecidableEq, Repr

/-- Modelled from the spec: `MmType3FieldUl::parse` reads one raw Type-3
element of the given identity following spec section 4.4 (Type-3 read,
generic raw form), i.e. through `parse_type3_generic`. -/
def MmType3FieldUl.parse (b : BitBuffer) (expected_id : Nat) :
    BufResult type34.Type34Err MmType3FieldUl :=
match type34.parse_type3_generic b expected_id with
| .ok (len, data) b' => .ok ⟨expected_id, len, data⟩ b'
| .err e b' => .err e b'

/-- Modelled from the spec: `MmType3FieldUl::write` emits
continuation-bit 1, the 4-bit identity, the 11-bit length and the
payload, following spec sections 3 and 4.4 (Type-3 wire form). -/
def MmType3FieldUl.write (b : BitBuffer) (field_type data len : Nat) : BitBuffer :=
(((b.write_bit 1).write_bits field_type 4).write_bits len 11).write_bits data len

/-- Modelled from the spec: the Group identity uplink sub-element
(`fields/group_identity_uplink.rs` is not among the provided sources).
The spec's test vector carries one element of 30 bits (declared length
36 = 6 + 30); the element is modelled as an opaque 30-bit value read and
written verbatim, the minimal layout consistent with the spec. -/
structure GroupIdentityUplink where
raw : Nat
deriving DecidableEq, Repr

/-- Modelled from the spec: decode one Group identity uplink sub-element
as its 30 raw bits. -/
def GroupIdentityUplink.from_bitbuf (b : BitBuffer) :
    BufResult PduParseError GroupIdentityUplink :=
match b.read_field 30 ("group_identity_uplink") with
| .ok v b' => .ok ⟨v⟩ b'
| .err e b' => .err e b'

/-- Modelled from the spec: encode one Group identity uplink sub-element
as its 30 raw bits. -/
def GroupIdentityUplink.to_bitbuf (g : GroupIdentityUplink) (b : BitBuffer) :
    BufResult PduParseError Unit :=
.ok () (b.write_bits g.raw 30)

/-- Embedding of the `UAttachDetachGroupIdentity` struct
(`src/entities/mm/pdus/u_attach_detach_group_identity.rs`). -/
structure UAttachDetachGroupIdentity where
group_identity_report : Bool
group_identity_attach_detach_mode : Bool
group_report_response : Option MmType3FieldUl
group_identity_uplink : Option (List GroupIdentityUplink)
proprietary : Option MmType3FieldUl
deriving DecidableEq, Repr

namespace UAttachDetachGroupIdentity

/-- Embedding of `UAttachDetachGroupIdentity::from_bitbuf`: 4-bit type
code checked against the constant, two Type-1 bits, the o-bit; then the
Type-3 Group report response (gated on the o-bit, all parse errors
turned into `None`), the Type-4 Group identity uplink (not gated on the
o-bit, errors mapped to `BufferEnded{group_identity_uplink}`), the
Type-3 Proprietary (gated, errors turned into `None`); finally the
trailing bit (read only if the o-bit was set) must be 0. -/
def from_bitbuf (b0 : BitBuffer) : BufResult PduParseError UAttachDetachGroupIdentity :=
match b0.read_field 4 ("pdu_type") with
| .err e b => .err e b
| .ok pdu_type b1 =>
  if pdu_type ≠ MmPduTypeUl.UAttachDetachGroupIdentityRaw then
    .err (.invalidPduType MmPduTypeUl.UAttachDetachGroupIdentityRaw pdu_type) b1
  else
    match b1.read_field 1 ("group_identity_report") with
    | .err e b => .err e b
    | .ok gir b2 =>
      match b2.read_field 1 ("group_identity_attach_detach_mode") with
      | .err e b => .err e b
      | .ok giadm b3 =>
        match delimiters.read_obit b3 with
        | .err e b => .err e b
        | .ok obit b4 =>
          let step3a : Option MmType3FieldUl × BitBuffer :=
            if obit then
              match MmType3FieldUl.parse b4 MmType34ElemIdUl.GroupReportResponse with
              | .ok value b' => (some value, b')
              | .err _ b' => (none, b')
            else (none, b4)
          match type34.parse_type4_struct step3a.2 MmType34ElemIdUl.GroupIdentityUplink
              GroupIdentityUplink.from_bitbuf with
          | .err _ b' => .err (.bufferEnded ("group_identity_uplink")) b'
          | .ok group_identity_uplink b5 =>
            let step3b : Option MmType3FieldUl × BitBuffer :=
              if obit then
                match MmType3FieldUl.parse b5 MmType34ElemIdUl.Proprietary with
                | .ok value b' => (some value, b')
                | .err _ b' => (none, b')
              else (none, b5)
            let trailing : BufResult PduParseError Bool :=
              if obit then
                match step3b.2.read_field 1 ("trailing_obit") with
                | .ok v b' => .ok (v == 1) b'
                | .err e b' => .err e b'
              else .ok obit step3b.2
            match trailing with
            | .err e b => .err e b
            | .ok obit2 b6 =>
              if obit2 then .err .invalidObitValue b6
              else
                .ok { group_identity_report := gir != 0,
                      group_identity_attach_detach_mode := giadm != 0,
                      group_report_response := step3a.1,
                      group_identity_uplink := group_identity_uplink,
                      proprietary := step3b.1 } b6

/-- Embedding of `UAttachDetachGroupIdentity::to_bitbuf`: type code, two
Type-1 bits, the o-bit computed from presence of any optional field;
stop if none, otherwise the Group report response, the Group identity
uplink, the Proprietary element, then the terminating m-bit 0. -/
def to_bitbuf (m : UAttachDetachGroupIdentity) (b0 : BitBuffer) :
    BufResult PduParseError Unit :=
let b1 := b0.write_bits MmPduTypeUl.UAttachDetachGroupIdentityRaw 4
let b2 := b1.write_bits (cond m.group_identity_report 1 0) 1
let b3 := b2.write_bits (cond m.group_identity_attach_detach_mode 1 0) 1
let obit_val : Bool :=
  m.group_report_response.isSome || m.group_identity_uplink.isSome || m.proprietary.isSome
let b4 := delimiters.write_obit b3 (cond obit_val 1 0)
if !obit_val then .ok () b4
else
  let b5 :=
    match m.group_report_response with
    | some value => MmType3FieldUl.write b4 value.field_type value.data value.len
    | none => b4
  match type34.write_type4_struct b5 m.group_identity_uplink
      MmType34ElemIdUl.GroupIdentityUplink GroupIdentityUplink.to_bitbuf with
  | .err e b => .err e b
  | .ok _ b6 =>
    let b7 :=
      match m.proprietary with
      | some value => MmType3FieldUl.write b6 value.field_type value.data value.len
      | none => b6
    .ok () (delimiters.write_mbit b7 0)

end UAttachDetachGroupIdentity

/-! ## Claim-support definitions -/

/-- Wire string of the decode/encode test in
`u_attach_detach_group_identity.rs` (`tests::decode_encode_test`). -/
def testVec : String := "011101111000000001001000000010100000000110101000110011100000"

/-- Message value that the test vector decodes to. -/
def testMsg : UAttachDetachGroupIdentity :=
{ group_identity_report := false,
  group_identity_attach_detach_mode := true,
  group_report_response := none,
  group_identity_uplink := some [⟨269305456⟩],
  proprietary := none }

/-- Seven-bit buffer that ends exactly at an o-bit reading 0: type code
0111, the two Type-1 bits, and the o-bit. -/
def obitEndWire : List Bool :=
natToBits 4 MmPduTypeUl.UAttachDetachGroupIdentityRaw ++ [false, true, false]

/-- Buffer whose Group report response Type-3 probe matches (m-bit 1,
identifier 9) but whose 11-bit length read then runs out of bits: only
9 bits follow the identifier. -/
def swallowWire : List Bool :=
natToBits 4 MmPduTypeUl.UAttachDetachGroupIdentityRaw ++ [false, true, true, true]
  ++ natToBits 4 MmType34ElemIdUl.GroupReportResponse ++ List.replicate 9 false

/-- Type-4 element block whose declared 11-bit length reads 0, below the
6 bits of the count field. -/
def shortLenHeaderWire : List Bool :=
true :: (natToBits 4 5 ++ natToBits 11 0 ++ natToBits 6 0)

/-- One-bit element codec used to exercise the generic Type-4 writer and
parser delegates: each element encodes as a single bit. -/
def bitElemWrite (x : Bool) (b : BitBuffer) : BufResult PduParseError Unit :=
.ok () (b.write_bits (cond x 1 0) 1)

/-- One-bit element decoder matching `bitElemWrite`. -/
def bitElemParse (b : BitBuffer) : BufResult PduParseError Bool :=
match b.read_field 1 ("bit_elem") with
| .ok v b' => .ok (v == 1) b'
| .err e b' => .err e b'

/-- Wire bits of one raw Type-3 element block (continuation bit, 4-bit
identity, 11-bit length, payload), exactly as `MmType3FieldUl.write`
emits them. -/
def type3BlockBits (f : MmType3FieldUl) : List Bool :=
true :: (natToBits 4 f.field_type ++ natToBits 11 f.len ++ natToBits f.len f.data)

/-- Wire bits of the Group identity uplink Type-4 block (continuation
bit, identity 8, 11-bit length 6 + 30·k, 6-bit count k, then the k
30-bit elements), exactly as `write_type4_struct` leaves them after the
backfill. -/
def uplinkBlockBits (gs : List GroupIdentityUplink) : List Bool :=
true :: (natToBits 4 MmType34ElemIdUl.GroupIdentityUplink
  ++ natToBits 11 (6 + 30 * gs.length) ++ natToBits 6 gs.length
  ++ (gs.map (fun g => natToBits 30 g.raw)).flatten)

/-- Declared-order wire encoding of a message, as `to_bitbuf` lays it
out: type code, the two Type-1 bits, then either o-bit 0 and nothing
else, or o-bit 1, the present blocks in declared order, and the
terminating continuation bit 0. -/
def encodeBits (m : UAttachDetachGroupIdentity) : List Bool :=
natToBits 4 MmPduTypeUl.UAttachDetachGroupIdentityRaw
  ++ [m.group_identity_report, m.group_identity_attach_detach_mode]
  ++ (if m.group_report_response.isSome || m.group_identity_uplink.isSome
        || m.proprietary.isSome then
      true :: ((m.group_report_response.elim [] type3BlockBits)
        ++ (m.group_identity_uplink.elim [] uplinkBlockBits)
        ++ (m.proprietary.elim [] type3BlockBits)
        ++ [false])
    else [false])

/-- Canonical ranges for a raw Type-3 field of a given identity: the
payload fits the declared length and the length fits its 11-bit field. -/
def ValidType3 (id : Nat) (f : MmType3FieldUl) : Prop :=
f.field_type = id ∧ f.len < 2 ^ 11 ∧ f.data < 2 ^ f.len

/-- Canonical field ranges under which a message value corresponds to a
wire: declared identities, Type-3 payloads fitting their lengths, uplink
elements fitting 30 bits, and an element count fitting the 6-bit count
field. -/
def ValidMsg (m : UAttachDetachGroupIdentity) : Prop :=
(∀ f ∈ m.group_report_response, ValidType3 MmType34ElemIdUl.GroupReportResponse f) ∧
(∀ gs ∈ m.group_identity_uplink, gs.length < 2 ^ 6 ∧ ∀ g ∈ gs, g.raw < 2 ^ 30) ∧
(∀ f ∈ m.proprietary, ValidType3 MmType34ElemIdUl.Proprietary f)

/-- At least one optional field is present. -/
def hasOptional (m : UAttachDetachGroupIdentity) : Prop :=
m.group_report_response.isSome ∨ m.group_identity_uplink.isSome ∨ m.proprietary.isSome

/-- Follows the spec's words (the refutation side of the round-trip
claim needs the spec's own notion of a well-formed wire): one
self-describing optional block of the representative message, either a
Type-3 block of a declared Type-3 identity or the Type-4 Group identity
uplink block. -/
inductive SpecBlock where
| type3 (id len data : Nat)
| type4 (elems : List Nat)
deriving DecidableEq, Repr

/-- Identity a spec block announces on the wire. -/
def SpecBlock.idOf : SpecBlock → Nat
| .type3 i _ _ => i
| .type4 _ => MmType34ElemIdUl.GroupIdentityUplink

/-- Follows the spec's words: structural well-formedness of one block. -/
def SpecBlock.wf : SpecBlock → Prop
| .type3 i len data =>
  (i = MmType34ElemIdUl.GroupReportResponse ∨ i = MmType34ElemIdUl.Proprietary)
    ∧ len < 2 ^ 11 ∧ data < 2 ^ len
| .type4 elems => elems.length < 2 ^ 6 ∧ ∀ e ∈ elems, e < 2 ^ 30

/-- Wire bits of one spec block, per spec sections 3 and 6. -/
def SpecBlock.bits : SpecBlock → List Bool
| .type3 i len data => true :: (natToBits 4 i ++ natToBits 11 len ++ natToBits len data)
| .type4 elems =>
  true :: (natToBits 4 MmType34ElemIdUl.GroupIdentityUplink
    ++ natToBits 11 (6 + 30 * elems.length) ++ natToBits 6 elems.length
    ++ (elems.map (natToBits 30)).flatten)

/-- Follows the spec's words (sections 3, 4.5 and 6): a well-formed wire
of the representative message is the 4-bit type code, the two Type-1
bits, then either o-bit 0 and nothing else, or o-bit 1, a sequence of
well-formed self-identifying blocks with pairwise distinct identities in
any wire order, and the terminating continuation bit 0. -/
def specWellFormedWire (w : List Bool) : Prop :=
∃ (r m : Bool) (tail : List Bool),
  w = natToBits 4 MmPduTypeUl.UAttachDetachGroupIdentityRaw ++ [r, m] ++ tail ∧
  (tail = [false] ∨
    ∃ blocks : List SpecBlock,
      tail = true :: ((blocks.map SpecBlock.bits).flatten ++ [false]) ∧
      (∀ bl ∈ blocks, bl.wf) ∧ (blocks.map SpecBlock.idOf).Nodup)

/-- Out-of-declaration-order wire for the round-trip claim: a
well-formed encoding in which the Proprietary Type-3 block precedes the
Group identity uplink Type-4 block on the wire. -/
def ooBlocks : List SpecBlock :=
[SpecBlock.type3 MmType34ElemIdUl.Proprietary 0 0, SpecBlock.type4 []]

/-- Bits of the out-of-declaration-order wire. -/
def ooWire : List Bool :=
natToBits 4 MmPduTypeUl.UAttachDetachGroupIdentityRaw ++ [false, true]
  ++ (true :: ((ooBlocks.map SpecBlock.bits).flatten ++ [false]))


/-- Appending-writer discipline for an element writer delegate: writing
an element to a buffer whose cursor sits at the end appends exactly the
element's encoding and succeeds. -/
def type34.AppendWriter (enc : T → List Bool)
    (wf : T → BitBuffer → BufResult PduParseError Unit) : Prop :=
∀ (t : T) (d : List Bool),
  wf t ⟨d, d.length⟩ = .ok () ⟨d ++ enc t, (d ++ enc t).length⟩

/-- Inverse-parser discipline of an element decoder delegate over a
given element sequence: on a buffer whose remaining bits start with the
encoding of an element of the sequence, the delegate returns that
element and consumes exactly its encoding. -/
def type34.InverseOn (enc : T → List Bool)
    (pf : BitBuffer → BufResult PduParseError T) (elems : List T) : Prop :=
∀ t ∈ elems, ∀ (b : BitBuffer) (u : List Bool),
  b.rem = enc t ++ u → pf b = .ok t (b.seek_rel (enc t).length)

/-! ## Support lemmas: bit serialization -/

@[simp] theorem natToBits_length (n v : Nat) : (natToBits n v).length = n := by
  induction n generalizing v with
  | zero => rfl
  | succ n ih => simp [natToBits, ih]

theorem bitsToNat_lt (l : List Bool) : bitsToNat l < 2 ^ l.length := by
  induction l with
  | nil => simp [bitsToNat]
  | cons b t ih =>
    cases b <;> simp [bitsToNat, List.length_cons, pow_succ] <;> omega

theorem bitsToNat_append (l₁ l₂ : List Bool) :
    bitsToNat (l₁ ++ l₂) = bitsToNat l₁ * 2 ^ l₂.length + bitsToNat l₂ := by
  induction l₁ with
  | nil => simp [bitsToNat]
  | cons b t ih =>
    cases b <;>
      simp [bitsToNat, ih, List.length_append, pow_add] <;> ring

theorem bitsToNat_natToBits (n v : Nat) : bitsToNat (natToBits n v) = v % 2 ^ n := by
  induction n generalizing v with
  | zero => simp [natToBits, bitsToNat, Nat.mod_one]
  | succ n ih =>
    rw [natToBits, bitsToNat_append, ih]
    have hsplit : v % 2 ^ (n + 1) = v % 2 + 2 * (v / 2 % 2 ^ n) := by
      rw [pow_succ', Nat.mod_mul]
    have hb : (cond (v % 2 == 1) 1 0 : Nat) = v % 2 := by
      rcases Nat.mod_two_eq_zero_or_one v with h | h <;> simp [h]
    simp only [bitsToNat, List.length_nil, pow_zero, one_mul, Nat.add_zero, hb,
      List.length_cons, natToBits_length]
    omega

theorem natToBits_bitsToNat (l : List Bool) : natToBits l.length (bitsToNat l) = l := by
  induction l using List.reverseRecOn with
  | nil => rfl
  | append_singleton t b ih =>
    have hval : bitsToNat (t ++ [b]) = 2 * bitsToNat t + cond b 1 0 := by
      rw [bitsToNat_append]
      simp [bitsToNat]
      ring
    have hlen : (t ++ [b]).length = t.length + 1 := by simp
    rw [hlen, hval, natToBits]
    have hdiv : (2 * bitsToNat t + cond b 1 0) / 2 = bitsToNat t := by
      cases b <;> simp <;> omega
    have hmod : ((2 * bitsToNat t + cond b 1 0) % 2 == 1) = b := by
      cases b <;> simp [Nat.add_mul_mod_self_left, Nat.mul_add_mod]
    rw [hdiv, hmod, ih]

theorem natToBits_one (x : Bool) : natToBits 1 (cond x 1 0) = [x] := by
  cases x <;> rfl

theorem cond_lt_two (x : Bool) : (cond x 1 0 : Nat) < 2 ^ 1 := by
  cases x <;> norm_num

/-! ## Support lemmas: cursor buffer -/

namespace BitBuffer

@[simp] theorem seek_rel_data (b : BitBuffer) (n : Nat) : (b.seek_rel n).data = b.data := rfl

@[simp] theorem seek_rel_pos (b : BitBuffer) (n : Nat) : (b.seek_rel n).pos = b.pos + n := rfl

theorem rem_seek_rel (b : BitBuffer) (n : Nat) : (b.seek_rel n).rem = b.rem.drop n := by
  simp [rem, seek_rel, List.drop_drop, Nat.add_comm]

theorem rem_of_append {b : BitBuffer} {l t : List Bool} (h : b.rem = l ++ t) :
    (b.seek_rel l.length).rem = t := by
  rw [rem_seek_rel, h, List.drop_left]

theorem read_bits_eq_of_rem (b : BitBuffer) (n : Nat) :
    b.read_bits n =
      if n ≤ b.rem.length then some (bitsToNat (b.rem.take n), b.seek_rel n) else none := by
  simp [read_bits, rem, seek_rel, List.length_drop]

theorem peek_bits_eq_of_rem (b : BitBuffer) (n : Nat) :
    b.peek_bits n =
      if n ≤ b.rem.length then some (bitsToNat (b.rem.take n)) else none := by
  simp [peek_bits, rem, List.length_drop]

theorem peek_bits_posoffset_eq_of_rem (b : BitBuffer) (skip n : Nat) :
    b.peek_bits_posoffset skip n =
      if skip + n ≤ b.rem.length then some (bitsToNat ((b.rem.drop skip).take n)) else none := by
  simp [peek_bits_posoffset, rem, List.length_drop, List.drop_drop, Nat.add_comm]

theorem read_bits_of_rem {b : BitBuffer} {n v : Nat} {t : List Bool}
    (h : b.rem = natToBits n v ++ t) (hv : v < 2 ^ n) :
    b.read_bits n = some (v, b.seek_rel n) := by
  rw [read_bits_eq_of_rem, h]
  have hlen : n ≤ (natToBits n v ++ t).length := by simp
  rw [if_pos hlen]
  have htake : (natToBits n v ++ t).take n = natToBits n v := by
    have h1 := List.take_left (natToBits n v) t
    simpa using h1
  rw [htake, bitsToNat_natToBits, Nat.mod_eq_of_lt hv]

theorem read_bits_cons {b : BitBuffer} {x : Bool} {t : List Bool} (h : b.rem = x :: t) :
    b.read_bits 1 = some (cond x 1 0, b.seek_rel 1) := by
  refine read_bits_of_rem (t := t) ?_ (cond_lt_two x)
  rw [h, natToBits_one]
  rfl

theorem peek_bits_of_rem {b : BitBuffer} {n v : Nat} {t : List Bool}
    (h : b.rem = natToBits n v ++ t) (hv : v < 2 ^ n) :
    b.peek_bits n = some v := by
  rw [peek_bits_eq_of_rem, h]
  have hlen : n ≤ (natToBits n v ++ t).length := by simp
  rw [if_pos hlen]
  have htake : (natToBits n v ++ t).take n = natToBits n v := by
    have h1 := List.take_left (natToBits n v) t
    simpa using h1
  rw [htake, bitsToNat_natToBits, Nat.mod_eq_of_lt hv]

theorem peek_bits_cons {b : BitBuffer} {x : Bool} {t : List Bool} (h : b.rem = x :: t) :
    b.peek_bits 1 = some (cond x 1 0) := by
  refine peek_bits_of_rem (t := t) ?_ (cond_lt_two x)
  rw [h, natToBits_one]
  rfl

theorem peek_bits_posoffset_of_rem {b : BitBuffer} {n v : Nat} {l t : List Bool}
    (h : b.rem = l ++ (natToBits n v ++ t)) (hv : v < 2 ^ n) :
    b.peek_bits_posoffset l.length n = some v := by
  rw [peek_bits_posoffset_eq_of_rem, h]
  have hlen : l.length + n ≤ (l ++ (natToBits n v ++ t)).length := by simp
  rw [if_pos hlen, List.drop_left]
  have htake : (natToBits n v ++ t).take n = natToBits n v := by
    have h1 := List.take_left (natToBits n v) t
    simpa using h1
  rw [htake, bitsToNat_natToBits, Nat.mod_eq_of_lt hv]

theorem read_bits_short {b : BitBuffer} {n : Nat} (h : b.rem.length < n) :
    b.read_bits n = none := by
  rw [read_bits_eq_of_rem, if_neg (by omega)]

theorem peek_bits_short {b : BitBuffer} {n : Nat} (h : b.rem.length < n) :
    b.peek_bits n = none := by
  rw [peek_bits_eq_of_rem, if_neg (by omega)]

theorem peek_bits_posoffset_short {b : BitBuffer} {skip n : Nat}
    (h : b.rem.length < skip + n) :
    b.peek_bits_posoffset skip n = none := by
  rw [peek_bits_posoffset_eq_of_rem, if_neg (by omega)]

theorem write_bits_append {b : BitBuffer} (h : b.pos = b.data.length) (v n : Nat) :
    b.write_bits v n = ⟨b.data ++ natToBits n v, b.data.length + n⟩ := by
  unfold write_bits
  rw [h]
  congr 1
  have h1 : b.data.length - b.data.length = 0 := by omega
  rw [h1, List.replicate_zero, List.append_nil, List.take_length,
    List.drop_eq_nil_of_le (by omega), List.append_nil]

theorem write_bits_overwrite {b : BitBuffer} {p s : List Bool} {w n : Nat}
    (hd : b.data = p ++ natToBits n w ++ s) (hp : b.pos = p.length) (v : Nat) :
    b.write_bits v n = ⟨p ++ natToBits n v ++ s, p.length + n⟩ := by
  unfold write_bits
  rw [hd, hp]
  have hlen : p.length - (p ++ natToBits n w ++ s).length = 0 := by
    simp
  rw [hlen, List.replicate_zero, List.append_nil]
  congr 1
  have htake : (p ++ natToBits n w ++ s).take p.length = p := by
    rw [List.append_assoc]
    have h1 := List.take_left p (natToBits n w ++ s)
    simpa using h1
  have hdrop : (p ++ natToBits n w ++ s).drop (p.length + n) = s := by
    rw [List.append_assoc]
    have h1 : (p ++ (natToBits n w ++ s)).drop (p.length + n)
        = ((p ++ (natToBits n w ++ s)).drop p.length).drop n := by
      rw [List.drop_drop, Nat.add_comm]
    rw [h1, List.drop_left]
    have h2 := List.drop_left (natToBits n w) s
    rwa [natToBits_length] at h2
  rw [htake, hdrop]

end BitBuffer

theorem natToBits_zero (n : Nat) : natToBits n 0 = List.replicate n false := by
  induction n with
  | zero => rfl
  | succ n ih =>
    rw [natToBits, Nat.zero_div, ih, Nat.zero_mod]
    rw [List.replicate_succ' (n := n)]
    rfl

theorem natToBits_zero_split (a c : Nat) :
    natToBits (a + c) 0 = natToBits a 0 ++ natToBits c 0 := by
  rw [natToBits_zero, natToBits_zero, natToBits_zero, List.replicate_add]

/-! ## Support lemmas: normalized write and seek steps -/

namespace BitBuffer

theorem seek_rel_zero (b : BitBuffer) : b.seek_rel 0 = b := rfl

theorem seek_rel_seek_rel (b : BitBuffer) (a c : Nat) :
    (b.seek_rel a).seek_rel c = b.seek_rel (a + c) := by
  show (⟨b.data, b.pos + a + c⟩ : BitBuffer) = ⟨b.data, b.pos + (a + c)⟩
  rw [Nat.add_assoc]

theorem write_bits_end {d : List Bool} {p : Nat} (hp : p = d.length) (v n : Nat) :
    (⟨d, p⟩ : BitBuffer).write_bits v n = ⟨d ++ natToBits n v, p + n⟩ := by
  subst hp
  exact write_bits_append rfl v n

theorem write_bit_one {d : List Bool} {p : Nat} (hp : p = d.length) :
    (⟨d, p⟩ : BitBuffer).write_bit 1 = ⟨d ++ [true], p + 1⟩ := by
  subst hp
  exact write_bits_append rfl 1 1

theorem write_bit_zero {d : List Bool} {p : Nat} (hp : p = d.length) :
    (⟨d, p⟩ : BitBuffer).write_bit 0 = ⟨d ++ [false], p + 1⟩ := by
  subst hp
  exact write_bits_append rfl 0 1

theorem write_bits_mid {q s : List Bool} (p : List Bool) {pp : Nat} (hpp : pp = p.length)
    {w n : Nat} (hq : q = natToBits n w) (v : Nat) :
    (⟨p ++ q ++ s, pp⟩ : BitBuffer).write_bits v n = ⟨p ++ natToBits n v ++ s, pp + n⟩ := by
  subst hq hpp
  exact write_bits_overwrite (by rw [List.append_assoc]) rfl v

end BitBuffer

/-! ## Support lemmas: Type-3 and Type-4 probe, read and write shapes -/

namespace type34

theorem check_peek_mbit_hit {b : BitBuffer} {u : List Bool} (h : b.rem = true :: u) :
    check_peek_mbit b = .ok true := by
  rw [check_peek_mbit, BitBuffer.peek_bits_cons h]
  simp

theorem check_peek_mbit_miss {b : BitBuffer} {u : List Bool} (h : b.rem = false :: u) :
    check_peek_mbit b = .error .fieldNotPresent := by
  rw [check_peek_mbit, BitBuffer.peek_bits_cons h]
  simp

theorem check_peek_mbit_oob {b : BitBuffer} (h : b.rem = []) :
    check_peek_mbit b = .error .outOfBounds := by
  rw [check_peek_mbit, BitBuffer.peek_bits_short (by rw [h]; decide)]

theorem check_peek_id_hit {b : BitBuffer} {id : Nat} {u : List Bool}
    (hid : id < 2 ^ 4) (h : b.rem = true :: (natToBits 4 id ++ u)) :
    check_peek_id b id = .ok () := by
  have hpk : b.peek_bits_posoffset 1 4 = some id := by
    have h1 : b.rem = [true] ++ (natToBits 4 id ++ u) := by rw [h]; rfl
    have := BitBuffer.peek_bits_posoffset_of_rem (l := [true]) h1 hid
    simpa using this
  rw [check_peek_id, hpk]
  simp

theorem check_peek_id_miss {b : BitBuffer} {id j : Nat} {u : List Bool}
    (hj : j < 2 ^ 4) (hne : j ≠ id) (h : b.rem = true :: (natToBits 4 j ++ u)) :
    check_peek_id b id = .error .fieldNotPresent := by
  have hpk : b.peek_bits_posoffset 1 4 = some j := by
    have h1 : b.rem = [true] ++ (natToBits 4 j ++ u) := by rw [h]; rfl
    have := BitBuffer.peek_bits_posoffset_of_rem (l := [true]) h1 hj
    simpa using this
  rw [check_peek_id, hpk]
  simp [hne]

theorem write_type4_elems_append {T : Type} {enc : T → List Bool}
    {wf : T → BitBuffer → BufResult PduParseError Unit}
    (hw : AppendWriter enc wf) (elems : List T) (d : List Bool) :
    write_type4_elems wf elems ⟨d, d.length⟩
      = .ok () ⟨d ++ (elems.map enc).flatten, (d ++ (elems.map enc).flatten).length⟩ := by
  induction elems generalizing d with
  | nil => simp [write_type4_elems]
  | cons t rest ih =>
    rw [write_type4_elems, hw t d]
    show write_type4_elems wf rest ⟨d ++ enc t, (d ++ enc t).length⟩
        = BufResult.ok () ⟨d ++ (List.map enc (t :: rest)).flatten,
            (d ++ (List.map enc (t :: rest)).flatten).length⟩
    rw [ih (d ++ enc t),
      show (List.map enc (t :: rest)).flatten = enc t ++ (List.map enc rest).flatten from rfl,
      ← List.append_assoc]

/-- Net effect of `write_type4_struct` on a present element sequence,
writing at the end of a buffer, given the run of the element loop: the
emitted block is the continuation bit, the 4-bit identity, the
backfilled 11-bit length `6 + total payload bits`, the 6-bit element
count, and the element payload; the cursor ends after the block. -/
theorem write_type4_struct_run {T : Type}
    {wf : T → BitBuffer → BufResult PduParseError Unit}
    (elems : List T) (d flat : List Bool) (id : Nat)
    (he : write_type4_elems wf elems ⟨((d ++ [true]) ++ natToBits 4 id) ++ natToBits 17 0,
        d.length + 22⟩
      = .ok () ⟨(((d ++ [true]) ++ natToBits 4 id) ++ natToBits 17 0) ++ flat,
          d.length + 22 + flat.length⟩) :
    write_type4_struct ⟨d, d.length⟩ (some elems) id wf
      = .ok () ⟨d ++ (true :: (natToBits 4 id
            ++ natToBits 11 (6 + flat.length)
            ++ natToBits 6 elems.length ++ flat)),
          d.length + 22 + flat.length⟩ := by
  have e1 : (⟨d, d.length⟩ : BitBuffer).write_bit 1 = ⟨d ++ [true], d.length + 1⟩ :=
    BitBuffer.write_bit_one rfl
  have e2 : (⟨d ++ [true], d.length + 1⟩ : BitBuffer).write_bits id 4
      = ⟨(d ++ [true]) ++ natToBits 4 id, d.length + 5⟩ := by
    have h := BitBuffer.write_bits_end (d := d ++ [true]) (p := d.length + 1) (by simp) id 4
    simpa using h
  have e3 : (⟨(d ++ [true]) ++ natToBits 4 id, d.length + 5⟩ : BitBuffer).write_bits 0 17
      = ⟨((d ++ [true]) ++ natToBits 4 id) ++ natToBits 17 0, d.length + 22⟩ := by
    have h := BitBuffer.write_bits_end (d := (d ++ [true]) ++ natToBits 4 id)
      (p := d.length + 5) (by simp) 0 17
    simpa using h
  have hsub : d.length + 22 + flat.length - (d.length + 5) - 11
      = 6 + flat.length := by omega
  have hdata : (((d ++ [true]) ++ natToBits 4 id) ++ natToBits 17 0) ++ flat
      = ((d ++ [true]) ++ natToBits 4 id) ++ natToBits 11 0
        ++ (natToBits 6 0 ++ flat) := by
    rw [show (17 : Nat) = 11 + 6 from rfl, natToBits_zero_split 11 6]
    simp [List.append_assoc]
  simp only [write_type4_struct, write_type34_header_generic, delimiters.write_mbit, e1, e2,
    BitBuffer.get_raw_pos, e3, he, BitBuffer.set_raw_pos, hsub, hdata]
  rw [BitBuffer.write_bits_mid ((d ++ [true]) ++ natToBits 4 id)
    (by simp) rfl (6 + flat.length)]
  rw [show ((d ++ [true]) ++ natToBits 4 id)
        ++ natToBits 11 (6 + flat.length)
        ++ (natToBits 6 0 ++ flat)
      = (((d ++ [true]) ++ natToBits 4 id)
          ++ natToBits 11 (6 + flat.length))
        ++ natToBits 6 0 ++ flat by simp [List.append_assoc]]
  rw [BitBuffer.write_bits_mid (((d ++ [true]) ++ natToBits 4 id)
      ++ natToBits 11 (6 + flat.length))
    (by simp) rfl elems.length]
  congr 2
  simp [List.append_assoc]

/-- Specialization of `write_type4_struct_run` to an appending element
writer delegate. -/
theorem write_type4_struct_spec {T : Type} {enc : T → List Bool}
    {wf : T → BitBuffer → BufResult PduParseError Unit}
    (hw : AppendWriter enc wf) (elems : List T) (d : List Bool) (id : Nat) :
    write_type4_struct ⟨d, d.length⟩ (some elems) id wf
      = .ok () ⟨d ++ (true :: (natToBits 4 id
            ++ natToBits 11 (6 + (elems.map enc).flatten.length)
            ++ natToBits 6 elems.length ++ (elems.map enc).flatten)),
          d.length + 22 + (elems.map enc).flatten.length⟩ := by
  refine write_type4_struct_run elems d ((elems.map enc).flatten) id ?_
  have hl : (((d ++ [true]) ++ natToBits 4 id) ++ natToBits 17 0).length
      = d.length + 22 := by simp
  rw [show (⟨((d ++ [true]) ++ natToBits 4 id) ++ natToBits 17 0, d.length + 22⟩ : BitBuffer)
      = ⟨((d ++ [true]) ++ natToBits 4 id) ++ natToBits 17 0,
         (((d ++ [true]) ++ natToBits 4 id) ++ natToBits 17 0).length⟩ by rw [hl]]
  rw [write_type4_elems_append hw elems]
  congr 1
  simp
  omega

/-- Net effect of `write_type4_struct` on a present but empty element
sequence, writing at the end of a buffer: exactly the 22-bit block of
continuation bit, 4-bit identity, 11-bit length 6 and 6-bit count 0. -/
theorem write_type4_struct_empty {T : Type}
    (wf : T → BitBuffer → BufResult PduParseError Unit) (d : List Bool) (id : Nat) :
    write_type4_struct ⟨d, d.length⟩ (some ([] : List T)) id wf
      = .ok () ⟨d ++ (true :: (natToBits 4 id ++ natToBits 11 6 ++ natToBits 6 0)),
          d.length + 22⟩ := by
  have h := @write_type4_struct_run T wf [] d [] id (by
    rw [write_type4_elems]
    congr 1
    simp)
  simpa using h

theorem parse_type4_header_hit {b : BitBuffer} {id L k : Nat} {u : List Bool}
    (hid : id < 2 ^ 4) (hL : L < 2 ^ 11) (hk : k < 2 ^ 6)
    (h : b.rem = true :: (natToBits 4 id ++ (natToBits 11 L ++ (natToBits 6 k ++ u)))) :
    parse_type4_header_generic b id = .ok (k, L - 6) (b.seek_rel 22)
      ∧ (b.seek_rel 22).rem = u := by
  have hm := check_peek_mbit_hit (u := natToBits 4 id ++ (natToBits 11 L ++ (natToBits 6 k ++ u))) h
  have hi := check_peek_id_hit hid h
  have h5 : b.rem = (true :: natToBits 4 id) ++ (natToBits 11 L ++ (natToBits 6 k ++ u)) := by
    rw [h]; rfl
  have hrem5 : (b.seek_rel 5).rem = natToBits 11 L ++ (natToBits 6 k ++ u) := by
    have := BitBuffer.rem_of_append h5
    simpa using this
  have hr11 : (b.seek_rel 5).read_bits 11 = some (L, (b.seek_rel 5).seek_rel 11) :=
    BitBuffer.read_bits_of_rem hrem5 hL
  have hrem16 : ((b.seek_rel 5).seek_rel 11).rem = natToBits 6 k ++ u := by
    have := BitBuffer.rem_of_append hrem5
    simpa using this
  have hr6 : ((b.seek_rel 5).seek_rel 11).read_bits 6
      = some (k, ((b.seek_rel 5).seek_rel 11).seek_rel 6) :=
    BitBuffer.read_bits_of_rem hrem16 hk
  have hb22 : ((b.seek_rel 5).seek_rel 11).seek_rel 6 = b.seek_rel 22 := by
    rw [BitBuffer.seek_rel_seek_rel, BitBuffer.seek_rel_seek_rel]
  constructor
  · rw [parse_type4_header_generic, hm, hi]
    simp only [hr11, hr6]
    rw [hb22]
  · rw [← hb22]
    have := BitBuffer.rem_of_append hrem16
    simpa using this

theorem parse_type4_elems_hit {T : Type} {enc : T → List Bool}
    {pf : BitBuffer → BufResult PduParseError T} (elems : List T)
    (hpf : InverseOn enc pf elems) (b : BitBuffer) (u : List Bool)
    (h : b.rem = (elems.map enc).flatten ++ u) :
    parse_type4_elems pf elems.length b
      = .ok elems (b.seek_rel (elems.map enc).flatten.length) := by
  induction elems generalizing b with
  | nil =>
    simp only [List.map_nil, List.flatten_nil, List.length_nil]
    rw [parse_type4_elems, BitBuffer.seek_rel_zero]
  | cons t rest ih =>
    have hflat : (List.map enc (t :: rest)).flatten
        = enc t ++ (List.map enc rest).flatten := rfl
    have h1 : b.rem = enc t ++ ((List.map enc rest).flatten ++ u) := by
      rw [h, hflat, List.append_assoc]
    have hp := hpf t (List.mem_cons_self t rest) b ((List.map enc rest).flatten ++ u) h1
    have hrem : (b.seek_rel (enc t).length).rem = (List.map enc rest).flatten ++ u :=
      BitBuffer.rem_of_append h1
    have hrec := ih (fun x hx => hpf x (List.mem_cons_of_mem t hx))
      (b.seek_rel (enc t).length) hrem
    rw [show (t :: rest).length = rest.length + 1 from rfl, parse_type4_elems, hp]
    show (match parse_type4_elems pf rest.length (b.seek_rel (enc t).length) with
      | BufResult.ok elems b'' => BufResult.ok (t :: elems) b''
      | BufResult.err e b'' => BufResult.err e b'') = _
    rw [hrec, BitBuffer.seek_rel_seek_rel, hflat]
    rw [List.length_append]

theorem parse_type4_struct_hit {T : Type} {enc : T → List Bool}
    {pf : BitBuffer → BufResult PduParseError T} {b : BitBuffer} {id L : Nat}
    {elems : List T} {u : List Bool}
    (hpf : InverseOn enc pf elems)
    (hid : id < 2 ^ 4) (hL : L < 2 ^ 11) (hk : elems.length < 2 ^ 6)
    (h : b.rem = true :: (natToBits 4 id ++ (natToBits 11 L
      ++ (natToBits 6 elems.length ++ ((elems.map enc).flatten ++ u))))) :
    parse_type4_struct b id pf
      = .ok (some elems) ((b.seek_rel 22).seek_rel (elems.map enc).flatten.length) := by
  obtain ⟨hhdr, hrem⟩ := parse_type4_header_hit hid hL hk h
  rw [parse_type4_struct, hhdr]
  show (match parse_type4_elems pf elems.length (b.seek_rel 22) with
    | BufResult.ok es b'' => BufResult.ok (some es) b''
    | BufResult.err e b'' => BufResult.err e b'') = _
  rw [parse_type4_elems_hit elems hpf (b.seek_rel 22) u hrem]

theorem parse_type4_struct_miss_mbit {T : Type}
    {pf : BitBuffer → BufResult PduParseError T} {b : BitBuffer} {id : Nat} {u : List Bool}
    (h : b.rem = false :: u) :
    parse_type4_struct b id pf = .ok none b := by
  rw [parse_type4_struct, parse_type4_header_generic, check_peek_mbit_miss h]
  simp

theorem parse_type4_struct_miss_id {T : Type}
    {pf : BitBuffer → BufResult PduParseError T} {b : BitBuffer} {id j : Nat} {u : List Bool}
    (hj : j < 2 ^ 4) (hne : j ≠ id) (h : b.rem = true :: (natToBits 4 j ++ u)) :
    parse_type4_struct b id pf = .ok none b := by
  rw [parse_type4_struct, parse_type4_header_generic, check_peek_mbit_hit h,
    check_peek_id_miss hj hne h]
  simp

theorem parse_type3_generic_hit {b : BitBuffer} {id L D : Nat} {u : List Bool}
    (hid : id < 2 ^ 4) (hL : L < 2 ^ 11) (hD : D < 2 ^ L)
    (h : b.rem = true :: (natToBits 4 id ++ (natToBits 11 L ++ (natToBits L D ++ u)))) :
    parse_type3_generic b id = .ok (L, D) (b.seek_rel (16 + L))
      ∧ (b.seek_rel (16 + L)).rem = u := by
  have hm := check_peek_mbit_hit (u := natToBits 4 id ++ (natToBits 11 L ++ (natToBits L D ++ u))) h
  have hi := check_peek_id_hit hid h
  have h5 : b.rem = (true :: natToBits 4 id) ++ (natToBits 11 L ++ (natToBits L D ++ u)) := by
    rw [h]; rfl
  have hrem5 : (b.seek_rel 5).rem = natToBits 11 L ++ (natToBits L D ++ u) := by
    have := BitBuffer.rem_of_append h5
    simpa using this
  have hr11 : (b.seek_rel 5).read_bits 11 = some (L, (b.seek_rel 5).seek_rel 11) :=
    BitBuffer.read_bits_of_rem hrem5 hL
  have hrem16 : ((b.seek_rel 5).seek_rel 11).rem = natToBits L D ++ u := by
    have := BitBuffer.rem_of_append hrem5
    simpa using this
  have hrD : ((b.seek_rel 5).seek_rel 11).read_bits L
      = some (D, (((b.seek_rel 5).seek_rel 11).seek_rel L)) :=
    BitBuffer.read_bits_of_rem hrem16 hD
  have hbL : (((b.seek_rel 5).seek_rel 11).seek_rel L) = b.seek_rel (16 + L) := by
    rw [BitBuffer.seek_rel_seek_rel, BitBuffer.seek_rel_seek_rel]
    congr 1
    omega
  constructor
  · rw [parse_type3_generic, hm, hi]
    simp only [hr11, hrD]
    rw [hbL]
  · rw [← hbL]
    have := BitBuffer.rem_of_append hrem16
    simpa using this

theorem parse_type3_generic_miss_mbit {b : BitBuffer} {id : Nat} {u : List Bool}
    (h : b.rem = false :: u) :
    parse_type3_generic b id = .err .fieldNotPresent b := by
  rw [parse_type3_generic, check_peek_mbit_miss h]

theorem parse_type3_generic_miss_id {b : BitBuffer} {id j : Nat} {u : List Bool}
    (hj : j < 2 ^ 4) (hne : j ≠ id) (h : b.rem = true :: (natToBits 4 j ++ u)) :
    parse_type3_generic b id = .err .fieldNotPresent b := by
  rw [parse_type3_generic, check_peek_mbit_hit h, check_peek_id_miss hj hne h]


end type34

/-! ## Support lemmas: raw Type-3 field and one-bit element delegates -/

theorem mmtype3_parse_hit {b : BitBuffer} {f : MmType3FieldUl} {u : List Bool}
    (hid : f.field_type < 2 ^ 4) (hL : f.len < 2 ^ 11) (hD : f.data < 2 ^ f.len)
    (h : b.rem = type3BlockBits f ++ u) :
    MmType3FieldUl.parse b f.field_type = .ok f (b.seek_rel (16 + f.len))
      ∧ (b.seek_rel (16 + f.len)).rem = u := by
  have h1 : b.rem = true :: (natToBits 4 f.field_type
      ++ (natToBits 11 f.len ++ (natToBits f.len f.data ++ u))) := by
    rw [h, type3BlockBits]
    simp [List.append_assoc]
  obtain ⟨hg, hrem⟩ := type34.parse_type3_generic_hit hid hL hD h1
  refine ⟨?_, hrem⟩
  rw [MmType3FieldUl.parse, hg]

theorem mmtype3_parse_miss_mbit {b : BitBuffer} {id : Nat} {u : List Bool}
    (h : b.rem = false :: u) :
    MmType3FieldUl.parse b id = .err .fieldNotPresent b := by
  rw [MmType3FieldUl.parse, type34.parse_type3_generic_miss_mbit h]

theorem mmtype3_parse_miss_id {b : BitBuffer} {id j : Nat} {u : List Bool}
    (hj : j < 2 ^ 4) (hne : j ≠ id) (h : b.rem = true :: (natToBits 4 j ++ u)) :
    MmType3FieldUl.parse b id = .err .fieldNotPresent b := by
  rw [MmType3FieldUl.parse, type34.parse_type3_generic_miss_id hj hne h]

theorem mmtype3_write_end (d : List Bool) (f : MmType3FieldUl) :
    MmType3FieldUl.write ⟨d, d.length⟩ f.field_type f.data f.len
      = ⟨d ++ type3BlockBits f, d.length + (16 + f.len)⟩ := by
  have e1 : (⟨d, d.length⟩ : BitBuffer).write_bit 1 = ⟨d ++ [true], d.length + 1⟩ :=
    BitBuffer.write_bit_one rfl
  have e2 : (⟨d ++ [true], d.length + 1⟩ : BitBuffer).write_bits f.field_type 4
      = ⟨(d ++ [true]) ++ natToBits 4 f.field_type, d.length + 5⟩ := by
    have h := BitBuffer.write_bits_end (d := d ++ [true]) (p := d.length + 1) (by simp)
      f.field_type 4
    simpa using h
  have e3 : (⟨(d ++ [true]) ++ natToBits 4 f.field_type, d.length + 5⟩ : BitBuffer).write_bits
      f.len 11
      = ⟨((d ++ [true]) ++ natToBits 4 f.field_type) ++ natToBits 11 f.len, d.length + 16⟩ := by
    have h := BitBuffer.write_bits_end (d := (d ++ [true]) ++ natToBits 4 f.field_type)
      (p := d.length + 5) (by simp) f.len 11
    simpa using h
  have e4 : (⟨((d ++ [true]) ++ natToBits 4 f.field_type) ++ natToBits 11 f.len,
        d.length + 16⟩ : BitBuffer).write_bits f.data f.len
      = ⟨(((d ++ [true]) ++ natToBits 4 f.field_type) ++ natToBits 11 f.len)
          ++ natToBits f.len f.data, d.length + 16 + f.len⟩ := by
    have h := BitBuffer.write_bits_end
      (d := ((d ++ [true]) ++ natToBits 4 f.field_type) ++ natToBits 11 f.len)
      (p := d.length + 16) (by simp) f.data f.len
    simpa using h
  rw [MmType3FieldUl.write, e1, e2, e3, e4]
  congr 1
  · rw [type3BlockBits]
    simp [List.append_assoc]
  · omega

theorem bitElemWrite_append : type34.AppendWriter (fun x => [x]) bitElemWrite := by
  intro t d
  rw [bitElemWrite, BitBuffer.write_bits_end rfl]
  rw [natToBits_one]
  congr 1
  simp

theorem bitElemParse_inverse (elems : List Bool) :
    type34.InverseOn (fun x => [x]) bitElemParse elems := by
  intro t _ b u h
  have h1 : b.rem = t :: u := by simpa using h
  have hr := BitBuffer.read_bits_cons h1
  rw [bitElemParse, BitBuffer.read_field, hr]
  cases t <;> simp

/-! ## Support lemmas: error shapes of the Type-3 and Type-4 decoders -/

theorem parse_type4_header_fnp_buf {b : BitBuffer} {id : Nat} {b' : BitBuffer}
    (h : type34.parse_type4_header_generic b id = .err .fieldNotPresent b') : b' = b := by
  rw [type34.parse_type4_header_generic] at h
  split at h
  · simp_all
  · split at h
    · simp_all
    · replace h : (match (b.seek_rel 5).read_bits 11 with
        | none => BufResult.err type34.Type34Err.outOfBounds (b.seek_rel 5)
        | some (len_bits, b2) =>
          match b2.read_bits 6 with
          | none => BufResult.err type34.Type34Err.outOfBounds b2
          | some (num_elems, b3) => BufResult.ok (num_elems, len_bits - 6) b3)
          = BufResult.err type34.Type34Err.fieldNotPresent b' := h
      cases hr : (b.seek_rel 5).read_bits 11 with
      | none => rw [hr] at h; simp_all
      | some r =>
        obtain ⟨L, b2⟩ := r
        rw [hr] at h
        replace h : (match b2.read_bits 6 with
          | none => BufResult.err type34.Type34Err.outOfBounds b2
          | some (num_elems, b3) => BufResult.ok (num_elems, L - 6) b3)
            = BufResult.err type34.Type34Err.fieldNotPresent b' := h
        cases hr6 : b2.read_bits 6 with
        | none => rw [hr6] at h; simp_all
        | some r2 =>
          obtain ⟨k, b3⟩ := r2
          rw [hr6] at h
          simp_all

theorem parse_type4_elems_err_oob {T : Type} {pf : BitBuffer → BufResult PduParseError T} :
    ∀ {k : Nat} {b : BitBuffer} {e : type34.Type34Err} {b' : BitBuffer},
      type34.parse_type4_elems pf k b = .err e b' → e = .outOfBounds := by
  intro k
  induction k with
  | zero =>
    intro b e b' h
    rw [type34.parse_type4_elems] at h
    simp at h
  | succ n ih =>
    intro b e b' h
    rw [type34.parse_type4_elems] at h
    cases hp : pf b with
    | err e2 b2 =>
      rw [hp] at h
      replace h : (BufResult.err type34.Type34Err.outOfBounds b2 :
          BufResult type34.Type34Err (List T)) = .err e b' := h
      injection h with h1 h2
      exact h1.symm
    | ok a b2 =>
      rw [hp] at h
      replace h : (match type34.parse_type4_elems pf n b2 with
        | BufResult.ok elems b2 => BufResult.ok (a :: elems) b2
        | BufResult.err e b2 => BufResult.err e b2) = BufResult.err e b' := h
      cases hrec : type34.parse_type4_elems pf n b2 with
      | ok es b3 =>
        rw [hrec] at h
        simp at h
      | err e3 b3 =>
        rw [hrec] at h
        replace h : (BufResult.err e3 b3 :
            BufResult type34.Type34Err (List T)) = .err e b' := h
        injection h with h1 h2
        exact h1 ▸ ih hrec

/-! ## Claim theorems -/

/-- C6 counterexample: on a buffer that ends before the p-bit, `type2::parse`
fails with `BufferEnded` naming the field `pbit`, not the supplied field
name `foo` — refuting the claim that a shortfall on either read carries
the supplied field name. -/
theorem type2_pbit_field_name_counterexample :
    type2.parse ⟨[], 0⟩ 3 ("foo") = .err (.bufferEnded ("pbit")) ⟨[], 0⟩
    ∧ PduParseError.bufferEnded ("pbit") ≠ PduParseError.bufferEnded ("foo") := by
  exact ⟨rfl, by decide⟩

/-- C6 (amended): `type2::parse` reads the p-bit; on 0 it returns absent
consuming only that bit; on 1 it reads `n` more bits and returns the
value; a shortfall on the p-bit read fails with `BufferEnded{pbit}`, and
a shortfall on the value read fails with `BufferEnded` carrying the
supplied field name. -/
theorem type2_parse_characterization (b : BitBuffer) (n : Nat) (name : String) :
    type2.parse b n name =
      match b.rem with
      | [] => .err (.bufferEnded ("pbit")) b
      | false :: _ => .ok none (b.seek_rel 1)
      | true :: t =>
        if n ≤ t.length then .ok (some (bitsToNat (t.take n))) ((b.seek_rel 1).seek_rel n)
        else .err (.bufferEnded name) (b.seek_rel 1) := by
  rcases hrem : b.rem with _ | ⟨x, t⟩
  · have hshort : b.read_bits 1 = none := BitBuffer.read_bits_short (by rw [hrem]; decide)
    simp [type2.parse, delimiters.read_pbit, BitBuffer.read_field, hshort, hrem]
  · have hread := BitBuffer.read_bits_cons hrem
    have hrem1 : (b.seek_rel 1).rem = t := by rw [BitBuffer.rem_seek_rel, hrem]; rfl
    cases x
    · simp [type2.parse, delimiters.read_pbit, BitBuffer.read_field, hread, hrem]
    · have hrb := BitBuffer.read_bits_eq_of_rem (b.seek_rel 1) n
      rw [hrem1] at hrb
      by_cases hn : n ≤ t.length
      · simp [type2.parse, delimiters.read_pbit, BitBuffer.read_field, hread, hrb, hn, hrem]
      · simp [type2.parse, delimiters.read_pbit, BitBuffer.read_field, hread, hrb, hn, hrem]

/-- C2: on the seven-bit buffer that ends exactly at an o-bit reading 0,
`from_bitbuf` does not succeed with all optional fields absent; the
unconditional Type-4 call probes past the o-bit, runs out of bits, and
the decode fails with `BufferEnded{group_identity_uplink}` — against the
spec's absence-propagation rule and the code's own comment that the
o-bit designates presence of any further fields. -/
theorem decode_fails_at_obit_end :
    UAttachDetachGroupIdentity.from_bitbuf ⟨obitEndWire, 0⟩
      = .err (.bufferEnded ("group_identity_uplink")) ⟨obitEndWire, 7⟩ := by
  decide

/-- C3: the 60-bit test vector decodes to the expected message (type
code accepted, `group_identity_report = false`,
`group_identity_attach_detach_mode = true`, o-bit 1 with a present
Group identity uplink Type-4 element); its declared length 36 and count
1 are consistent with the 30 remaining payload bits (36 = 6 + 30·1),
and re-encoding reproduces the exact 60-bit string. -/
theorem test_vector_decode_encode :
    UAttachDetachGroupIdentity.from_bitbuf (BitBuffer.from_bitstr testVec)
      = .ok testMsg ⟨(BitBuffer.from_bitstr testVec).data, 60⟩
    ∧ testMsg.group_identity_report = false
    ∧ testMsg.group_identity_attach_detach_mode = true
    ∧ testMsg.group_identity_uplink = some [⟨269305456⟩]
    ∧ 269305456 < 2 ^ 30
    ∧ 36 = 6 + 30 * 1
    ∧ UAttachDetachGroupIdentity.to_bitbuf testMsg ⟨[], 0⟩
      = .ok () ⟨(BitBuffer.from_bitstr testVec).data, 60⟩
    ∧ BitBuffer.to_bitstr ⟨(BitBuffer.from_bitstr testVec).data, 60⟩ = testVec := by
  decide

/-- C9 counterexample: a Type-4 block whose declared 11-bit length reads
0 drives `parse_type4_header_generic` into the unguarded `len_bits - 6`
subtraction with a value below 6 — the claimed impossibility of
underflow fails (the embedding's saturating result `0 - 6 = 0` stands in
for the Rust `usize` underflow). -/
theorem type4_header_len_underflow_counterexample :
    type34.parse_type4_header_underflows ⟨shortLenHeaderWire, 0⟩ 5 = true
    ∧ type34.parse_type4_header_generic ⟨shortLenHeaderWire, 0⟩ 5
      = .ok (0, 0) ⟨shortLenHeaderWire, 22⟩ := by
  decide

/-- C5 counterexample: on `swallowWire` the Group report response Type-3
parse at its wire position fails with `OutOfBounds` (the probe matched,
the 11-bit length read ran out of bits), yet `from_bitbuf` on the same
wire does not abort: it returns a fully decoded message with the field
absent — refuting the claim that every non-"not present" optional
element error propagates out of `from_bitbuf`. -/
theorem type3_error_swallowed_counterexample :
    MmType3FieldUl.parse ⟨swallowWire, 7⟩ MmType34ElemIdUl.GroupReportResponse
      = .err .outOfBounds ⟨swallowWire, 12⟩
    ∧ UAttachDetachGroupIdentity.from_bitbuf ⟨swallowWire, 0⟩
      = .ok { group_identity_report := false,
              group_identity_attach_detach_mode := true,
              group_report_response := none,
              group_identity_uplink := none,
              proprietary := none } ⟨swallowWire, 13⟩ := by
  decide

/-- C1 counterexample: `ooWire` is a spec-well-formed encoding of the
representative message whose self-identifying blocks appear out of the
declared order (Proprietary before Group identity uplink); decoding it
fails with `InvalidObitValue` — so decode-then-re-encode cannot
reproduce it, refuting the any-wire-order half of the round-trip claim. -/
theorem roundtrip_any_order_counterexample :
    specWellFormedWire ooWire
    ∧ UAttachDetachGroupIdentity.from_bitbuf ⟨ooWire, 0⟩
      = .err .invalidObitValue ⟨ooWire, 24⟩ := by
  constructor
  · refine ⟨false, true, _, rfl, Or.inr ⟨ooBlocks, rfl, ?_, by decide⟩⟩
    intro bl hbl
    rcases List.mem_cons.mp hbl with h | hbl2
    · subst h; exact ⟨Or.inr rfl, by norm_num, by norm_num⟩
    · rcases List.mem_cons.mp hbl2 with h | h3
      · subst h; exact ⟨by norm_num, by simp⟩
      · simp at h3
  · decide

/-- C10: a present-but-empty Type-4 sequence is representable and round
trips. Writing `Some []` at the end of a buffer emits exactly the 22-bit
block continuation-bit 1, 4-bit identity, 11-bit length 6, 6-bit count
0; writing `None` emits nothing; and parsing at that position with the
same identity returns `Some []`, consuming exactly those 22 bits —
whatever the element writer and parser delegates are (they are never
invoked on an empty sequence). -/
theorem type4_empty_roundtrip (T : Type) (id : Nat) (hid : id < 2 ^ 4) (d u : List Bool)
    (wf : T → BitBuffer → BufResult PduParseError Unit)
    (pf : BitBuffer → BufResult PduParseError T) :
    type34.write_type4_struct ⟨d, d.length⟩ (some ([] : List T)) id wf
      = .ok () ⟨d ++ (true :: (natToBits 4 id ++ natToBits 11 6 ++ natToBits 6 0)),
          d.length + 22⟩
    ∧ type34.write_type4_struct ⟨d, d.length⟩ (none : Option (List T)) id wf
      = .ok () ⟨d, d.length⟩
    ∧ type34.parse_type4_struct
        ⟨d ++ (true :: (natToBits 4 id ++ natToBits 11 6 ++ natToBits 6 0)) ++ u, d.length⟩ id pf
      = .ok (some ([] : List T))
          ⟨d ++ (true :: (natToBits 4 id ++ natToBits 11 6 ++ natToBits 6 0)) ++ u,
           d.length + 22⟩ := by
  refine ⟨type34.write_type4_struct_empty wf d id, rfl, ?_⟩
  have hrem : (⟨d ++ (true :: (natToBits 4 id ++ natToBits 11 6 ++ natToBits 6 0)) ++ u,
      d.length⟩ : BitBuffer).rem
      = true :: (natToBits 4 id ++ (natToBits 11 6 ++ (natToBits 6 0 ++ u))) := by
    show ((d ++ (true :: (natToBits 4 id ++ natToBits 11 6 ++ natToBits 6 0)) ++ u).drop d.length)
      = _
    rw [List.append_assoc, List.drop_left]
    simp [List.append_assoc]
  have h := @type34.parse_type4_struct_hit T (fun _ : T => ([] : List Bool)) pf
    ⟨d ++ (true :: (natToBits 4 id ++ natToBits 11 6 ++ natToBits 6 0)) ++ u, d.length⟩
    id 6 ([] : List T) u
    (fun t ht => absurd ht (List.not_mem_nil t)) hid (by norm_num) (by norm_num)
    (by rw [hrem]; rfl)
  rw [h]
  rfl

/-- C10 witness: the empty-sequence round trip at identity 5 with the
one-bit element delegates. -/
theorem type4_empty_roundtrip_witness :
    type34.write_type4_struct ⟨[], ([] : List Bool).length⟩ (some ([] : List Bool)) 5 bitElemWrite
      = .ok () ⟨[] ++ (true :: (natToBits 4 5 ++ natToBits 11 6 ++ natToBits 6 0)),
          ([] : List Bool).length + 22⟩
    ∧ type34.write_type4_struct ⟨[], ([] : List Bool).length⟩ (none : Option (List Bool)) 5
        bitElemWrite
      = .ok () ⟨[], ([] : List Bool).length⟩
    ∧ type34.parse_type4_struct
        ⟨[] ++ (true :: (natToBits 4 5 ++ natToBits 11 6 ++ natToBits 6 0)) ++ [],
         ([] : List Bool).length⟩ 5 bitElemParse
      = .ok (some ([] : List Bool))
          ⟨[] ++ (true :: (natToBits 4 5 ++ natToBits 11 6 ++ natToBits 6 0)) ++ [],
           ([] : List Bool).length + 22⟩ :=
  type4_empty_roundtrip Bool 5 (by decide) [] [] bitElemWrite bitElemParse

set_option maxRecDepth 8192 in
/-- C4 counterexample: with 64 one-bit sub-elements the 6-bit count
field wraps to 0 — the written count bits equal those of count 0, and
decoding the freshly encoded buffer recovers 0 sub-elements, not 64 —
refuting the claim for unbounded `k` (the 11-bit length field is still
6 + 64 = 70). -/
theorem type4_count_wrap_counterexample :
    type34.write_type4_struct ⟨[], 0⟩ (some (List.replicate 64 true)) 5 bitElemWrite
      = .ok () ⟨true :: (natToBits 4 5 ++ natToBits 11 70 ++ natToBits 6 64
          ++ List.replicate 64 true), 86⟩
    ∧ natToBits 6 64 = natToBits 6 0
    ∧ type34.parse_type4_struct ⟨true :: (natToBits 4 5 ++ natToBits 11 70 ++ natToBits 6 64
          ++ List.replicate 64 true), 0⟩ 5 bitElemParse
      = .ok (some ([] : List Bool)) ⟨true :: (natToBits 4 5 ++ natToBits 11 70 ++ natToBits 6 64
          ++ List.replicate 64 true), 22⟩
    ∧ (0 : Nat) ≠ (List.replicate 64 true).length := by
  refine ⟨by decide, by decide, by decide, by decide⟩

/-- C4 (amended): for every non-empty sequence of fewer than 64
sub-elements whose total encoding fits the 11-bit length field, and
well-behaved writer and parser delegates, `write_type4_struct` emits an
11-bit length equal to 6 + total sub-element bits and a 6-bit count
equal to k, back-filled after the payload; decoding the freshly encoded
block at the same position with the same identity recovers exactly the
k sub-elements. -/
theorem type4_backfill_correct (T : Type) (enc : T → List Bool)
    (wf : T → BitBuffer → BufResult PduParseError Unit)
    (pf : BitBuffer → BufResult PduParseError T)
    (elems : List T) (d u : List Bool) (id : Nat)
    (hw : type34.AppendWriter enc wf) (hpf : type34.InverseOn enc pf elems)
    (hne : elems ≠ []) (hk : elems.length < 2 ^ 6) (hid : id < 2 ^ 4)
    (hL : 6 + (elems.map enc).flatten.length < 2 ^ 11) :
    type34.write_type4_struct ⟨d, d.length⟩ (some elems) id wf
      = .ok () ⟨d ++ (true :: (natToBits 4 id
            ++ natToBits 11 (6 + (elems.map enc).flatten.length)
            ++ natToBits 6 elems.length ++ (elems.map enc).flatten)),
          d.length + 22 + (elems.map enc).flatten.length⟩
    ∧ type34.parse_type4_struct
        ⟨d ++ (true :: (natToBits 4 id
            ++ natToBits 11 (6 + (elems.map enc).flatten.length)
            ++ natToBits 6 elems.length ++ (elems.map enc).flatten)) ++ u, d.length⟩ id pf
      = .ok (some elems)
          ⟨d ++ (true :: (natToBits 4 id
            ++ natToBits 11 (6 + (elems.map enc).flatten.length)
            ++ natToBits 6 elems.length ++ (elems.map enc).flatten)) ++ u,
           d.length + (22 + (elems.map enc).flatten.length)⟩ := by
  refine ⟨type34.write_type4_struct_spec hw elems d id, ?_⟩
  have hrem : (⟨d ++ (true :: (natToBits 4 id
        ++ natToBits 11 (6 + (elems.map enc).flatten.length)
        ++ natToBits 6 elems.length ++ (elems.map enc).flatten)) ++ u, d.length⟩ : BitBuffer).rem
      = true :: (natToBits 4 id ++ (natToBits 11 (6 + (elems.map enc).flatten.length)
          ++ (natToBits 6 elems.length ++ ((elems.map enc).flatten ++ u)))) := by
    show ((d ++ (true :: (natToBits 4 id
        ++ natToBits 11 (6 + (elems.map enc).flatten.length)
        ++ natToBits 6 elems.length ++ (elems.map enc).flatten)) ++ u).drop d.length) = _
    rw [List.append_assoc, List.drop_left]
    simp [List.append_assoc]
  have h := type34.parse_type4_struct_hit hpf hid hL hk hrem
  rw [h, BitBuffer.seek_rel_seek_rel]
  rfl

/-- C4 witness: the backfill round trip for the two one-bit elements
[true, false] at identity 5 on an empty buffer. -/
theorem type4_backfill_correct_witness :
    type34.write_type4_struct ⟨[], ([] : List Bool).length⟩ (some [true, false]) 5 bitElemWrite
      = .ok () ⟨[] ++ (true :: (natToBits 4 5
            ++ natToBits 11 (6 + (([true, false]).map (fun x => [x])).flatten.length)
            ++ natToBits 6 ([true, false]).length ++ (([true, false]).map (fun x => [x])).flatten)),
          ([] : List Bool).length + 22 + (([true, false]).map (fun x => [x])).flatten.length⟩
    ∧ type34.parse_type4_struct
        ⟨[] ++ (true :: (natToBits 4 5
            ++ natToBits 11 (6 + (([true, false]).map (fun x => [x])).flatten.length)
            ++ natToBits 6 ([true, false]).length
            ++ (([true, false]).map (fun x => [x])).flatten)) ++ [],
         ([] : List Bool).length⟩ 5 bitElemParse
      = .ok (some [true, false])
          ⟨[] ++ (true :: (natToBits 4 5
            ++ natToBits 11 (6 + (([true, false]).map (fun x => [x])).flatten.length)
            ++ natToBits 6 ([true, false]).length
            ++ (([true, false]).map (fun x => [x])).flatten)) ++ [],
           ([] : List Bool).length + (22 + (([true, false]).map (fun x => [x])).flatten.length)⟩ :=
  type4_backfill_correct Bool (fun x => [x]) bitElemWrite bitElemParse [true, false] [] [] 5
    bitElemWrite_append (bitElemParse_inverse [true, false]) (by decide) (by decide) (by decide)
    (by decide)

/-- C7: a Type-3/Type-4 probe that does not find the sought element
leaves the buffer exactly as it was: a structured Type-3 or Type-4 parse
returning "absent" hands back the unchanged buffer, and so does the raw
Type-3 parse reporting `FieldNotPresent`; the cursor only moves through
the explicit 5-bit seek after a successful probe (the peek probes
themselves take the buffer immutably and cannot move it). Probing is a
pure function of the buffer, so repeated probes at one position agree. -/
theorem probe_miss_preserves_buffer (T : Type) :
    (∀ (b : BitBuffer) (id : Nat) (pf : BitBuffer → BufResult PduParseError T) (b' : BitBuffer),
      type34.parse_type3_struct b id pf = .ok none b' → b' = b)
    ∧ (∀ (b : BitBuffer) (id : Nat) (pf : BitBuffer → BufResult PduParseError T)
        (b' : BitBuffer),
      type34.parse_type4_struct b id pf = .ok none b' → b' = b)
    ∧ (∀ (b : BitBuffer) (id : Nat) (b' : BitBuffer),
      type34.parse_type3_generic b id = .err .fieldNotPresent b' → b' = b) := by
  refine ⟨?_, ?_, ?_⟩
  · intro b id pf b' h
    rw [type34.parse_type3_struct] at h
    split at h
    · simp_all
    · simp_all
    · split at h
      · simp_all
      · simp_all
      · replace h : (match (b.seek_rel 5).read_bits 11 with
          | none => BufResult.err type34.Type34Err.outOfBounds (b.seek_rel 5)
          | some (_len_bits, b2) =>
            match pf b2 with
            | BufResult.ok value b3 => BufResult.ok (some value) b3
            | BufResult.err _ b3 => BufResult.err type34.Type34Err.outOfBounds b3)
            = BufResult.ok none b' := h
        cases hr : (b.seek_rel 5).read_bits 11 with
        | none => rw [hr] at h; simp_all
        | some r =>
          obtain ⟨L, b2⟩ := r
          rw [hr] at h
          replace h : (match pf b2 with
            | BufResult.ok value b3 => BufResult.ok (some value) b3
            | BufResult.err _ b3 => BufResult.err type34.Type34Err.outOfBounds b3)
              = BufResult.ok none b' := h
          cases hp : pf b2 with
          | ok v b3 => rw [hp] at h; simp_all
          | err e b3 => rw [hp] at h; simp_all
  · intro b id pf b' h
    rw [type34.parse_type4_struct] at h
    cases hh : type34.parse_type4_header_generic b id with
    | ok r bh =>
      obtain ⟨k, L⟩ := r
      rw [hh] at h
      replace h : (match type34.parse_type4_elems pf k bh with
        | BufResult.ok elems b2 => BufResult.ok (some elems) b2
        | BufResult.err e b2 => BufResult.err e b2) = BufResult.ok none b' := h
      cases hl : type34.parse_type4_elems pf k bh with
      | ok es b3 => rw [hl] at h; simp_all
      | err e3 b3 => rw [hl] at h; simp_all
    | err e bh =>
      rw [hh] at h
      replace h : (if e = type34.Type34Err.fieldNotPresent then BufResult.ok none bh
          else BufResult.err e bh) = BufResult.ok none b' := h
      by_cases he : e = type34.Type34Err.fieldNotPresent
      · rw [if_pos he] at h
        injection h with h1 h2
        rw [← h2]
        exact parse_type4_header_fnp_buf (he ▸ hh)
      · rw [if_neg he] at h
        simp_all
  · intro b id b' h
    rw [type34.parse_type3_generic] at h
    split at h
    · simp_all
    · split at h
      · simp_all
      · replace h : (match (b.seek_rel 5).read_bits 11 with
          | none => BufResult.err type34.Type34Err.outOfBounds (b.seek_rel 5)
          | some (len_bits, b2) =>
            match b2.read_bits len_bits with
            | none => BufResult.err type34.Type34Err.outOfBounds b2
            | some (data, b3) => BufResult.ok (len_bits, data) b3)
            = BufResult.err type34.Type34Err.fieldNotPresent b' := h
        cases hr : (b.seek_rel 5).read_bits 11 with
        | none => rw [hr] at h; simp_all
        | some r =>
          obtain ⟨L, b2⟩ := r
          rw [hr] at h
          replace h : (match b2.read_bits L with
            | none => BufResult.err type34.Type34Err.outOfBounds b2
            | some (data, b3) => BufResult.ok (L, data) b3)
              = BufResult.err type34.Type34Err.fieldNotPresent b' := h
          cases hr2 : b2.read_bits L with
          | none => rw [hr2] at h; simp_all
          | some r2 =>
            obtain ⟨D, b3⟩ := r2
            rw [hr2] at h
            simp_all

/-- C7 witness: probing a chain-terminator bit (m-bit 0) for identity 3
returns absent and hands back the very same buffer. -/
theorem probe_miss_preserves_buffer_witness :
    type34.parse_type3_struct ⟨[false], 0⟩ 3 (fun b => BufResult.ok (0 : Nat) b)
      = .ok none ⟨[false], 0⟩
    ∧ (⟨[false], 0⟩ : BitBuffer) = ⟨[false], 0⟩ := by
  have h : type34.parse_type3_struct ⟨[false], 0⟩ 3 (fun b => BufResult.ok (0 : Nat) b)
      = .ok none ⟨[false], 0⟩ := rfl
  exact ⟨h, (probe_miss_preserves_buffer Nat).1 ⟨[false], 0⟩ 3 _ _ h⟩

/-- C8: in the structured Type-3 and Type-4 decode paths every delegate
failure — whatever its `ParseError` kind — surfaces as the single
generic `OutOfBounds` kind: a failing delegate turns a structured Type-3
parse into `OutOfBounds`, every error the Type-4 element loop ever
returns is `OutOfBounds`, and a failing element loop turns the whole
Type-4 parse into `OutOfBounds`. -/
theorem delegate_error_collapsed_to_out_of_bounds (T : Type) :
    (∀ (b : BitBuffer) (id : Nat) (pf : BitBuffer → BufResult PduParseError T)
        (L : Nat) (bh b' : BitBuffer) (e : PduParseError),
      type34.check_peek_mbit b = .ok true →
      type34.check_peek_id b id = .ok () →
      (b.seek_rel 5).read_bits 11 = some (L, bh) →
      pf bh = .err e b' →
      type34.parse_type3_struct b id pf = .err .outOfBounds b')
    ∧ (∀ (pf : BitBuffer → BufResult PduParseError T) (k : Nat) (b b' : BitBuffer)
        (e : type34.Type34Err),
      type34.parse_type4_elems pf k b = .err e b' → e = .outOfBounds)
    ∧ (∀ (b : BitBuffer) (id : Nat) (pf : BitBuffer → BufResult PduParseError T)
        (k L : Nat) (bh b' : BitBuffer) (e : type34.Type34Err),
      type34.parse_type4_header_generic b id = .ok (k, L) bh →
      type34.parse_type4_elems pf k bh = .err e b' →
      type34.parse_type4_struct b id pf = .err .outOfBounds b') := by
  refine ⟨?_, ?_, ?_⟩
  · intro b id pf L bh b' e h1 h2 h3 h4
    rw [type34.parse_type3_struct, h1, h2]
    show (match (b.seek_rel 5).read_bits 11 with
      | none => BufResult.err type34.Type34Err.outOfBounds (b.seek_rel 5)
      | some (_len_bits, b2) =>
        match pf b2 with
        | BufResult.ok value b3 => BufResult.ok (some value) b3
        | BufResult.err _ b3 => BufResult.err type34.Type34Err.outOfBounds b3)
      = BufResult.err type34.Type34Err.outOfBounds b'
    rw [h3]
    show (match pf bh with
      | BufResult.ok value b3 => BufResult.ok (some value) b3
      | BufResult.err _ b3 => BufResult.err type34.Type34Err.outOfBounds b3)
      = BufResult.err type34.Type34Err.outOfBounds b'
    rw [h4]
  · intro pf k b b' e h
    exact parse_type4_elems_err_oob h
  · intro b id pf k L bh b' e h1 h2
    rw [type34.parse_type4_struct, h1]
    show (match type34.parse_type4_elems pf k bh with
      | BufResult.ok elems b2 => BufResult.ok (some elems) b2
      | BufResult.err e b2 => BufResult.err e b2)
      = BufResult.err type34.Type34Err.outOfBounds b'
    rw [h2, parse_type4_elems_err_oob h2]

/-- C8 witness: a delegate failing with `InvalidObitValue` after a
successful probe of identity 3 surfaces as `OutOfBounds` from the
structured Type-3 parse, and a Type-4 element loop failure is
`OutOfBounds`. -/
theorem delegate_error_collapsed_witness :
    type34.parse_type3_struct ⟨true :: (natToBits 4 3 ++ natToBits 11 0), 0⟩ 3
        (fun b => (BufResult.err PduParseError.invalidObitValue b : BufResult PduParseError Nat))
      = .err .outOfBounds ⟨true :: (natToBits 4 3 ++ natToBits 11 0), 16⟩
    ∧ type34.Type34Err.outOfBounds = type34.Type34Err.outOfBounds := by
  refine ⟨?_, ?_⟩
  · exact (delegate_error_collapsed_to_out_of_bounds Nat).1
      ⟨true :: (natToBits 4 3 ++ natToBits 11 0), 0⟩ 3
      (fun b => BufResult.err PduParseError.invalidObitValue b) 0
      ⟨true :: (natToBits 4 3 ++ natToBits 11 0), 16⟩
      ⟨true :: (natToBits 4 3 ++ natToBits 11 0), 16⟩
      PduParseError.invalidObitValue rfl rfl rfl rfl
  · exact (delegate_error_collapsed_to_out_of_bounds Nat).2.1
      (fun b => BufResult.err PduParseError.invalidObitValue b) 1
      ⟨[], 0⟩ ⟨[], 0⟩ type34.Type34Err.outOfBounds rfl

/-- C9 (amended): `parse_type4_header_generic` is total and the panic
arm of `check_peek_mbit` is unreachable (a 1-bit peek only yields 0 or
1); and whenever the header parse succeeds without the length
subtraction underflowing, the returned payload length is exactly the
declared 11-bit length minus 6 (the declared length was `L + 6`). The
subtraction does underflow for declared lengths below 6 — see the
counterexample. -/
theorem type4_header_total_no_panic :
    (∀ b : BitBuffer, type34.check_peek_mbit_panics b = false)
    ∧ (∀ (b : BitBuffer) (id k L : Nat) (bh : BitBuffer),
        type34.parse_type4_header_generic b id = .ok (k, L) bh →
        type34.parse_type4_header_underflows b id = false →
        (b.seek_rel 5).read_bits 11 = some (L + 6, (b.seek_rel 5).seek_rel 11)) := by
  constructor
  · intro b
    rw [type34.check_peek_mbit_panics]
    cases hp : b.peek_bits 1 with
    | none => rfl
    | some v =>
      have hv : v < 2 := by
        rw [BitBuffer.peek_bits_eq_of_rem] at hp
        by_cases hle : 1 ≤ b.rem.length
        · rw [if_pos hle] at hp
          injection hp with h1
          have hlt := bitsToNat_lt (b.rem.take 1)
          have hlen : (b.rem.take 1).length ≤ 1 := by
            simp [List.length_take]
          calc v = bitsToNat (b.rem.take 1) := h1.symm
            _ < 2 ^ (b.rem.take 1).length := hlt
            _ ≤ 2 ^ 1 := Nat.pow_le_pow_right (by norm_num) hlen
            _ = 2 := by norm_num
        · rw [if_neg hle] at hp
          exact absurd hp (by simp)
      match v, hv with
      | 0, _ => rfl
      | 1, _ => rfl
  · intro b id k L bh hok hunder
    rw [type34.parse_type4_header_generic] at hok
    rw [type34.parse_type4_header_underflows] at hunder
    cases hm : type34.check_peek_mbit b with
    | error e =>
      rw [hm] at hok
      replace hok : (BufResult.err e b : BufResult type34.Type34Err (Nat × Nat))
          = BufResult.ok (k, L) bh := hok
      simp at hok
    | ok v =>
      rw [hm] at hok hunder
      cases hi : type34.check_peek_id b id with
      | error e =>
        rw [hi] at hok
        replace hok : (BufResult.err e b : BufResult type34.Type34Err (Nat × Nat))
            = BufResult.ok (k, L) bh := hok
        simp at hok
      | ok u =>
        rw [hi] at hok hunder
        replace hok : (match (b.seek_rel 5).read_bits 11 with
          | none => BufResult.err type34.Type34Err.outOfBounds (b.seek_rel 5)
          | some (len_bits, b2) =>
            match b2.read_bits 6 with
            | none => BufResult.err type34.Type34Err.outOfBounds b2
            | some (num_elems, b3) => BufResult.ok (num_elems, len_bits - 6) b3)
            = BufResult.ok (k, L) bh := hok
        replace hunder : (match (b.seek_rel 5).read_bits 11 with
          | none => false
          | some (len_bits, b2) =>
            match b2.read_bits 6 with
            | none => false
            | some (_, _) => decide (len_bits < 6)) = false := hunder
        cases hr : (b.seek_rel 5).read_bits 11 with
        | none => rw [hr] at hok; simp at hok
        | some r =>
          obtain ⟨len, b2⟩ := r
          rw [hr] at hok hunder
          replace hok : (match b2.read_bits 6 with
            | none => BufResult.err type34.Type34Err.outOfBounds b2
            | some (num_elems, b3) => BufResult.ok (num_elems, len - 6) b3)
              = BufResult.ok (k, L) bh := hok
          replace hunder : (match b2.read_bits 6 with
            | none => false
            | some (_, _) => decide (len < 6)) = false := hunder
          cases hr6 : b2.read_bits 6 with
          | none => rw [hr6] at hok; simp at hok
          | some r2 =>
            obtain ⟨k2, b3⟩ := r2
            rw [hr6] at hok hunder
            replace hok : (BufResult.ok (k2, len - 6) b3 :
                BufResult type34.Type34Err (Nat × Nat)) = BufResult.ok (k, L) bh := hok
            replace hunder : decide (len < 6) = false := hunder
            have hge : 6 ≤ len := by
              have := of_decide_eq_false hunder
              omega
            injection hok with h1 h2
            injection h1 with h3 h4
            have hlen : len = L + 6 := by omega
            rw [BitBuffer.read_bits_eq_of_rem] at hr
            by_cases hle : 11 ≤ (b.seek_rel 5).rem.length
            · rw [if_pos hle] at hr
              injection hr with h5
              injection h5 with h6 h7
              rw [hlen, ← h7]
            · rw [if_neg hle] at hr
              exact absurd hr (by simp)

/-- C9 witness: the panic arm is unreachable on the empty buffer, and on
a well-formed header of declared length 36 the returned payload length
30 satisfies 30 + 6 = 36 with no underflow. -/
theorem type4_header_total_no_panic_witness :
    type34.check_peek_mbit_panics ⟨[], 0⟩ = false
    ∧ ((⟨true :: (natToBits 4 8 ++ natToBits 11 36 ++ natToBits 6 1
          ++ List.replicate 30 false), 0⟩ : BitBuffer).seek_rel 5).read_bits 11
      = some (30 + 6, ((⟨true :: (natToBits 4 8 ++ natToBits 11 36 ++ natToBits 6 1
          ++ List.replicate 30 false), 0⟩ : BitBuffer).seek_rel 5).seek_rel 11) := by
  refine ⟨type4_header_total_no_panic.1 ⟨[], 0⟩, ?_⟩
  exact type4_header_total_no_panic.2
    ⟨true :: (natToBits 4 8 ++ natToBits 11 36 ++ natToBits 6 1 ++ List.replicate 30 false), 0⟩
    8 1 30
    ⟨true :: (natToBits 4 8 ++ natToBits 11 36 ++ natToBits 6 1 ++ List.replicate 30 false), 22⟩
    (by decide) (by decide)

/-- C5 (amended): during a decode of the representative message with the
o-bit set, a probe-level "not present" is never turned into an error and
a failure of the Type-4 Group identity uplink parse aborts `from_bitbuf`
immediately as `BufferEnded{group_identity_uplink}`; but failures of the
Type-3 parses (including `OutOfBounds`) are converted into absent
fields rather than propagated: whenever the decode succeeds after the
Group report response parse failed, that field is simply `none`. -/
theorem optional_error_propagation :
    (∀ (b0 b1 b2 b3 b4 b5 b6 : BitBuffer) (x y : Nat) (e : type34.Type34Err)
        (gr : BufResult type34.Type34Err MmType3FieldUl),
      b0.read_field 4 ("pdu_type") = .ok 7 b1 →
      b1.read_field 1 ("group_identity_report") = .ok x b2 →
      b2.read_field 1 ("group_identity_attach_detach_mode") = .ok y b3 →
      delimiters.read_obit b3 = .ok true b4 →
      MmType3FieldUl.parse b4 MmType34ElemIdUl.GroupReportResponse = gr →
      gr.buf = b5 →
      type34.parse_type4_struct b5 MmType34ElemIdUl.GroupIdentityUplink
        GroupIdentityUplink.from_bitbuf = .err e b6 →
      UAttachDetachGroupIdentity.from_bitbuf b0
        = .err (.bufferEnded ("group_identity_uplink")) b6)
    ∧ (∀ (b0 b1 b2 b3 b4 b5 bf : BitBuffer) (x y : Nat) (e : type34.Type34Err)
        (m : UAttachDetachGroupIdentity),
      b0.read_field 4 ("pdu_type") = .ok 7 b1 →
      b1.read_field 1 ("group_identity_report") = .ok x b2 →
      b2.read_field 1 ("group_identity_attach_detach_mode") = .ok y b3 →
      delimiters.read_obit b3 = .ok true b4 →
      MmType3FieldUl.parse b4 MmType34ElemIdUl.GroupReportResponse = .err e b5 →
      UAttachDetachGroupIdentity.from_bitbuf b0 = .ok m bf →
      m.group_report_response = none) := by
  constructor
  · intro b0 b1 b2 b3 b4 b5 b6 x y e gr h1 h2 h3 h4 hgr hbuf h7
    rw [UAttachDetachGroupIdentity.from_bitbuf]
    simp only [h1, h2, h3, h4, MmPduTypeUl.UAttachDetachGroupIdentityRaw, ne_eq, not_true,
      reduceIte]
    cases gr with
    | ok v bg =>
      simp only [BufResult.buf] at hbuf
      simp only [hgr, hbuf, h7]
    | err e2 bg =>
      simp only [BufResult.buf] at hbuf
      simp only [hgr, hbuf, h7]
  · intro b0 b1 b2 b3 b4 b5 bf x y e m h1 h2 h3 h4 hgr hfb
    rw [UAttachDetachGroupIdentity.from_bitbuf] at hfb
    simp only [h1, h2, h3, h4, MmPduTypeUl.UAttachDetachGroupIdentityRaw, ne_eq, not_true,
      reduceIte, hgr] at hfb
    cases hul : type34.parse_type4_struct b5 MmType34ElemIdUl.GroupIdentityUplink
        GroupIdentityUplink.from_bitbuf with
    | err e3 bu =>
      simp only [hul] at hfb
      simp at hfb
    | ok ul bu =>
      simp only [hul] at hfb
      cases hpr : MmType3FieldUl.parse bu MmType34ElemIdUl.Proprietary with
      | ok pv bp =>
        simp only [hpr] at hfb
        cases htr : bp.read_field 1 ("trailing_obit") with
        | ok tv bt =>
          simp only [htr] at hfb
          by_cases hv : (tv == 1) = true
          · simp [hv] at hfb
          · have hv2 : (tv == 1) = false := by
              cases htv : (tv == 1) <;> simp_all
            simp [hv2] at hfb
            rw [← hfb.1]
        | err e4 bt =>
          simp only [htr] at hfb
          simp at hfb
      | err e5 bp =>
        simp only [hpr] at hfb
        cases htr : bp.read_field 1 ("trailing_obit") with
        | ok tv bt =>
          simp only [htr] at hfb
          by_cases hv : (tv == 1) = true
          · simp [hv] at hfb
          · have hv2 : (tv == 1) = false := by
              cases htv : (tv == 1) <;> simp_all
            simp [hv2] at hfb
            rw [← hfb.1]
        | err e4 bt =>
          simp only [htr] at hfb
          simp at hfb

/-- C5 witness: on a seven-bit buffer ending right after an o-bit of 1
the failing Type-4 parse aborts the decode as
`BufferEnded{group_identity_uplink}`, and on `swallowWire` the decode
that succeeded after a failing Group report response parse carries that
field as absent. -/
theorem optional_error_propagation_witness :
    UAttachDetachGroupIdentity.from_bitbuf ⟨natToBits 4 7 ++ [false, true, true], 0⟩
      = .err (.bufferEnded ("group_identity_uplink")) ⟨natToBits 4 7 ++ [false, true, true], 7⟩
    ∧ ({ group_identity_report := false, group_identity_attach_detach_mode := true,
         group_report_response := none, group_identity_uplink := none,
         proprietary := none } : UAttachDetachGroupIdentity).group_report_response = none := by
  constructor
  · exact optional_error_propagation.1 ⟨natToBits 4 7 ++ [false, true, true], 0⟩
      ⟨natToBits 4 7 ++ [false, true, true], 4⟩ ⟨natToBits 4 7 ++ [false, true, true], 5⟩
      ⟨natToBits 4 7 ++ [false, true, true], 6⟩ ⟨natToBits 4 7 ++ [false, true, true], 7⟩
      ⟨natToBits 4 7 ++ [false, true, true], 7⟩ ⟨natToBits 4 7 ++ [false, true, true], 7⟩
      0 1 type34.Type34Err.outOfBounds
      (BufResult.err type34.Type34Err.outOfBounds ⟨natToBits 4 7 ++ [false, true, true], 7⟩)
      (by decide) (by decide) (by decide) (by decide) (by decide) (by decide) (by decide)
  · exact optional_error_propagation.2 ⟨swallowWire, 0⟩ ⟨swallowWire, 4⟩ ⟨swallowWire, 5⟩
      ⟨swallowWire, 6⟩ ⟨swallowWire, 7⟩ ⟨swallowWire, 12⟩ ⟨swallowWire, 13⟩ 0 1
      type34.Type34Err.outOfBounds
      { group_identity_report := false, group_identity_attach_detach_mode := true,
        group_report_response := none, group_identity_uplink := none, proprietary := none }
      (by decide) (by decide) (by decide) (by decide) (by decide) (by decide)

/-! ## Support lemmas: message-level encode and decode steps -/

theorem bne_cond_zero (x : Bool) : ((cond x 1 0 : Nat) != 0) = x := by
  cases x <;> rfl

theorem beq_cond_one (x : Bool) : ((cond x 1 0 : Nat) == 1) = x := by
  cases x <;> rfl

theorem type3BlockBits_length (f : MmType3FieldUl) :
    (type3BlockBits f).length = 16 + f.len := by
  simp [type3BlockBits]
  omega

theorem giu_flatten_length (gs : List GroupIdentityUplink) :
    ((gs.map (fun g => natToBits 30 g.raw)).flatten).length = 30 * gs.length := by
  induction gs with
  | nil => rfl
  | cons g t ih =>
    show (natToBits 30 g.raw ++ (t.map (fun g => natToBits 30 g.raw)).flatten).length
        = 30 * (t.length + 1)
    rw [List.length_append, natToBits_length, ih]
    ring

theorem uplinkBlockBits_length (gs : List GroupIdentityUplink) :
    (uplinkBlockBits gs).length = 22 + 30 * gs.length := by
  rw [uplinkBlockBits, List.length_cons, List.length_append, List.length_append,
    List.length_append, natToBits_length, natToBits_length, natToBits_length,
    giu_flatten_length]
  omega

theorem giu_append_writer :
    type34.AppendWriter (fun g => natToBits 30 g.raw) GroupIdentityUplink.to_bitbuf := by
  intro g d
  rw [GroupIdentityUplink.to_bitbuf, BitBuffer.write_bits_end rfl]
  congr 1
  simp

theorem giu_inverse (gs : List GroupIdentityUplink) (h : ∀ g ∈ gs, g.raw < 2 ^ 30) :
    type34.InverseOn (fun g => natToBits 30 g.raw) GroupIdentityUplink.from_bitbuf gs := by
  intro g hg b u hrem
  rw [GroupIdentityUplink.from_bitbuf, BitBuffer.read_field,
    BitBuffer.read_bits_of_rem hrem (h g hg)]
  simp [natToBits_length]

/-- Behaviour of the o-bit-gated Group report response / Proprietary
step of `from_bitbuf`: a present valid block is consumed exactly, an
absent one (detected from the head of what follows) leaves the buffer
unchanged, and in both cases the error-swallowing match yields the
expected optional field. -/
theorem type3_opt_step (b : BitBuffer) (id : Nat) (hid : id < 2 ^ 4)
    (o : Option MmType3FieldUl) (S : List Bool)
    (hvalid : ∀ f ∈ o, ValidType3 id f)
    (hrem : b.rem = (o.elim [] type3BlockBits) ++ S)
    (hmiss : o = none → (∃ u, S = false :: u)
      ∨ ∃ j u, S = true :: (natToBits 4 j ++ u) ∧ j < 2 ^ 4 ∧ j ≠ id) :
    (match MmType3FieldUl.parse b id with
      | BufResult.ok value b' => (some value, b')
      | BufResult.err _ b' => (none, b'))
      = (o, b.seek_rel (o.elim [] type3BlockBits).length)
    ∧ (b.seek_rel (o.elim [] type3BlockBits).length).rem = S := by
  cases o with
  | some f =>
    obtain ⟨hft, hL, hD⟩ := hvalid f rfl
    have hid' : f.field_type < 2 ^ 4 := by rw [hft]; exact hid
    have hrem' : b.rem = type3BlockBits f ++ S := by simpa using hrem
    obtain ⟨hp, hr⟩ := mmtype3_parse_hit hid' hL hD hrem'
    rw [hft] at hp
    have hlen : (Option.elim (some f) ([] : List Bool) type3BlockBits).length = 16 + f.len := by
      simp [type3BlockBits_length]
    rw [hlen, hp]
    exact ⟨rfl, hr⟩
  | none =>
    have hrem0 : b.rem = S := by simpa using hrem
    have hseek : b.seek_rel (Option.elim none ([] : List Bool) type3BlockBits).length = b := rfl
    rcases hmiss rfl with ⟨u, hS⟩ | ⟨j, u, hS, hj, hne⟩
    · have hrem' : b.rem = false :: u := by rw [hrem0, hS]
      rw [hseek, mmtype3_parse_miss_mbit hrem']
      exact ⟨rfl, hrem0⟩
    · have hrem' : b.rem = true :: (natToBits 4 j ++ u) := by rw [hrem0, hS]
      rw [hseek, mmtype3_parse_miss_id hj hne hrem']
      exact ⟨rfl, hrem0⟩

/-- Behaviour of the unconditional Group identity uplink Type-4 step of
`from_bitbuf` on a declared-order wire: a present valid block is
consumed exactly, an absent one (detected from the head of what
follows) leaves the buffer unchanged. -/
theorem type4_opt_step (b : BitBuffer) (o : Option (List GroupIdentityUplink)) (S : List Bool)
    (hvalid : ∀ gs ∈ o, gs.length < 2 ^ 6 ∧ ∀ g ∈ gs, g.raw < 2 ^ 30)
    (hrem : b.rem = (o.elim [] uplinkBlockBits) ++ S)
    (hmiss : o = none → (∃ u, S = false :: u)
      ∨ ∃ j u, S = true :: (natToBits 4 j ++ u) ∧ j < 2 ^ 4
          ∧ j ≠ MmType34ElemIdUl.GroupIdentityUplink) :
    type34.parse_type4_struct b MmType34ElemIdUl.GroupIdentityUplink
        GroupIdentityUplink.from_bitbuf
      = .ok o (b.seek_rel (o.elim [] uplinkBlockBits).length)
    ∧ (b.seek_rel (o.elim [] uplinkBlockBits).length).rem = S := by
  cases o with
  | some gs =>
    obtain ⟨hk, hraw⟩ := hvalid gs rfl
    have hflat : ((gs.map (fun g => natToBits 30 g.raw)).flatten).length = 30 * gs.length :=
      giu_flatten_length gs
    have hL : 6 + 30 * gs.length < 2 ^ 11 := by
      have : gs.length < 64 := hk
      omega
    have hrem' : b.rem = true :: (natToBits 4 MmType34ElemIdUl.GroupIdentityUplink
        ++ (natToBits 11 (6 + 30 * gs.length) ++ (natToBits 6 gs.length
            ++ ((gs.map (fun g => natToBits 30 g.raw)).flatten ++ S)))) := by
      rw [hrem]
      show uplinkBlockBits gs ++ S = _
      rw [uplinkBlockBits]
      simp [List.append_assoc]
    obtain hhit := type34.parse_type4_struct_hit (giu_inverse gs hraw) (by decide)
      (by rw [show (6 + 30 * gs.length : Nat) = 6 + 30 * gs.length from rfl]; exact hL) hk hrem'
    have hblocklen : (Option.elim (some gs) ([] : List Bool) uplinkBlockBits).length
        = 22 + 30 * gs.length := by
      simp [uplinkBlockBits_length]
    have hseekeq : (b.seek_rel 22).seek_rel
          ((gs.map (fun g => natToBits 30 g.raw)).flatten).length
        = b.seek_rel (Option.elim (some gs) ([] : List Bool) uplinkBlockBits).length := by
      rw [BitBuffer.seek_rel_seek_rel, hflat, hblocklen]
    constructor
    · rw [hhit, hseekeq]
    · rw [← hseekeq, BitBuffer.rem_seek_rel, BitBuffer.rem_seek_rel, hrem, List.drop_drop]
      have h22 : 22 + ((gs.map (fun g => natToBits 30 g.raw)).flatten).length
          = ((some gs).elim ([] : List Bool) uplinkBlockBits).length := by
        rw [hblocklen, hflat]
      rw [h22, List.drop_left]
  | none =>
    have hrem0 : b.rem = S := by simpa using hrem
    have hseek : b.seek_rel (Option.elim none ([] : List Bool) uplinkBlockBits).length = b := rfl
    rcases hmiss rfl with ⟨u, hS⟩ | ⟨j, u, hS, hj, hne⟩
    · have hrem' : b.rem = false :: u := by rw [hrem0, hS]
      rw [hseek, type34.parse_type4_struct_miss_mbit hrem']
      exact ⟨rfl, hrem0⟩
    · have hrem' : b.rem = true :: (natToBits 4 j ++ u) := by rw [hrem0, hS]
      rw [hseek, type34.parse_type4_struct_miss_id hj hne hrem']
      exact ⟨rfl, hrem0⟩

theorem write_bit_cond {d : List Bool} {p : Nat} (hp : p = d.length) (x : Bool) :
    (⟨d, p⟩ : BitBuffer).write_bit (cond x 1 0) = ⟨d ++ [x], p + 1⟩ := by
  subst hp
  rw [BitBuffer.write_bit, BitBuffer.write_bits_end rfl, natToBits_one]

/-- Net effect of the optional Type-3 write step of `to_bitbuf` at the
end of a buffer: a present field appends its block, an absent one
appends nothing. -/
theorem write_opt_type3_end (d : List Bool) (p : Nat) (hp : p = d.length)
    (o : Option MmType3FieldUl) :
    (match o with
      | some value => MmType3FieldUl.write ⟨d, p⟩ value.field_type value.data value.len
      | none => (⟨d, p⟩ : BitBuffer))
      = ⟨d ++ o.elim [] type3BlockBits, p + (o.elim [] type3BlockBits).length⟩ := by
  subst hp
  cases o with
  | none => simp
  | some f =>
    show MmType3FieldUl.write ⟨d, d.length⟩ f.field_type f.data f.len = _
    rw [mmtype3_write_end]
    congr 1
    show (d.length + (16 + f.len) : Nat) = d.length + ((some f).elim [] type3BlockBits).length
    rw [show ((some f).elim [] type3BlockBits) = type3BlockBits f from rfl,
      type3BlockBits_length]

/-- Net effect of the Group identity uplink Type-4 write step of
`to_bitbuf` at the end of a buffer: a present sequence appends its
backfilled block, an absent one appends nothing. -/
theorem write_opt_type4_end (d : List Bool) (p : Nat) (hp : p = d.length)
    (o : Option (List GroupIdentityUplink)) :
    type34.write_type4_struct ⟨d, p⟩ o MmType34ElemIdUl.GroupIdentityUplink
        GroupIdentityUplink.to_bitbuf
      = .ok () ⟨d ++ o.elim [] uplinkBlockBits, p + (o.elim [] uplinkBlockBits).length⟩ := by
  subst hp
  cases o with
  | none =>
    show BufResult.ok () (⟨d, d.length⟩ : BitBuffer) = _
    congr 1
    simp
  | some gs =>
    rw [type34.write_type4_struct_spec giu_append_writer gs d
      MmType34ElemIdUl.GroupIdentityUplink]
    congr 1
    congr 1
    · show d ++ (true :: (natToBits 4 MmType34ElemIdUl.GroupIdentityUplink
          ++ natToBits 11 (6 + ((gs.map (fun g => natToBits 30 g.raw)).flatten).length)
          ++ natToBits 6 gs.length ++ (gs.map (fun g => natToBits 30 g.raw)).flatten))
        = d ++ uplinkBlockBits gs
      rw [giu_flatten_length]
      rfl
    · show (d.length + 22 + ((gs.map (fun g => natToBits 30 g.raw)).flatten).length : Nat)
        = d.length + ((some gs).elim [] uplinkBlockBits).length
      rw [show ((some gs).elim [] uplinkBlockBits) = uplinkBlockBits gs from rfl,
        giu_flatten_length, uplinkBlockBits_length]
      omega

/-- Net effect of `to_bitbuf` on an empty buffer: it emits exactly
`encodeBits`, the declared-order wire layout, and ends with the cursor
at the end. -/
theorem to_bitbuf_emits (m : UAttachDetachGroupIdentity) :
    UAttachDetachGroupIdentity.to_bitbuf m ⟨[], 0⟩
      = .ok () ⟨encodeBits m, (encodeBits m).length⟩ := by
  obtain ⟨r, md, grr, ul, pr⟩ := m
  have e1 : (⟨[], 0⟩ : BitBuffer).write_bits MmPduTypeUl.UAttachDetachGroupIdentityRaw 4
      = ⟨natToBits 4 MmPduTypeUl.UAttachDetachGroupIdentityRaw, 4⟩ :=
    BitBuffer.write_bits_end (d := ([] : List Bool)) (p := 0) rfl _ 4
  have e2 : (⟨natToBits 4 MmPduTypeUl.UAttachDetachGroupIdentityRaw, 4⟩ : BitBuffer).write_bits
      (cond r 1 0) 1
      = ⟨natToBits 4 MmPduTypeUl.UAttachDetachGroupIdentityRaw ++ [r], 5⟩ := by
    have h := BitBuffer.write_bits_end
      (d := natToBits 4 MmPduTypeUl.UAttachDetachGroupIdentityRaw) (p := 4) (by simp)
      (cond r 1 0) 1
    rw [h, natToBits_one]
  have e3 : (⟨natToBits 4 MmPduTypeUl.UAttachDetachGroupIdentityRaw ++ [r], 5⟩ :
      BitBuffer).write_bits (cond md 1 0) 1
      = ⟨(natToBits 4 MmPduTypeUl.UAttachDetachGroupIdentityRaw ++ [r]) ++ [md], 6⟩ := by
    have h := BitBuffer.write_bits_end
      (d := natToBits 4 MmPduTypeUl.UAttachDetachGroupIdentityRaw ++ [r]) (p := 5) (by simp)
      (cond md 1 0) 1
    rw [h, natToBits_one]
  rw [UAttachDetachGroupIdentity.to_bitbuf]
  simp only [e1, e2, e3, delimiters.write_obit, delimiters.write_mbit]
  cases hopt : (grr.isSome || ul.isSome || pr.isSome) with
  | false =>
    obtain ⟨h1, h2, h3⟩ : grr = none ∧ ul = none ∧ pr = none := by
      rcases grr <;> rcases ul <;> rcases pr <;> simp_all
    subst h1; subst h2; subst h3
    simp only [cond_false, Bool.not_false, reduceIte]
    rw [BitBuffer.write_bit_zero (by simp)]
    rw [encodeBits]
    simp only [Option.isSome_none, Bool.or_self, Bool.or_false, reduceIte]
    congr 1
  | true =>
    simp only [cond_true, Bool.not_true, reduceIte]
    rw [BitBuffer.write_bit_one (by simp)]
    rw [write_opt_type3_end ((natToBits 4 MmPduTypeUl.UAttachDetachGroupIdentityRaw ++ [r])
        ++ [md] ++ [true]) 7 (by simp) grr]
    rw [write_opt_type4_end (((natToBits 4 MmPduTypeUl.UAttachDetachGroupIdentityRaw ++ [r])
        ++ [md] ++ [true]) ++ grr.elim [] type3BlockBits)
      (7 + (grr.elim [] type3BlockBits).length)
      (by simp only [List.length_append, List.length_cons, List.length_nil, natToBits_length, type3BlockBits_length]) ul]
    show BufResult.ok () _ = _
    rw [write_opt_type3_end ((((natToBits 4 MmPduTypeUl.UAttachDetachGroupIdentityRaw ++ [r])
        ++ [md] ++ [true]) ++ grr.elim [] type3BlockBits) ++ ul.elim [] uplinkBlockBits)
      (7 + (grr.elim [] type3BlockBits).length + (ul.elim [] uplinkBlockBits).length)
      (by simp only [List.length_append, List.length_cons, List.length_nil, natToBits_length, type3BlockBits_length]) pr]
    rw [BitBuffer.write_bit_zero (by simp only [List.length_append, List.length_cons, List.length_nil, natToBits_length, type3BlockBits_length])]
    rw [encodeBits]
    simp only [hopt, reduceIte]
    congr 1
    congr 1
    simp only [List.length_append, List.length_cons, List.length_nil, natToBits_length]
    omega

/-- Net effect of `from_bitbuf` on a freshly encoded declared-order wire
with the o-bit set: the decode succeeds, recovers the original message
and ends with the cursor at the end of the wire. -/
theorem from_bitbuf_encodeBits (m : UAttachDetachGroupIdentity)
    (hv : ValidMsg m) (ho : hasOptional m) :
    UAttachDetachGroupIdentity.from_bitbuf ⟨encodeBits m, 0⟩
      = .ok m ⟨encodeBits m, (encodeBits m).length⟩ := by
  obtain ⟨r, md, grr, ul, pr⟩ := m
  replace hv : (∀ f ∈ grr, ValidType3 MmType34ElemIdUl.GroupReportResponse f)
      ∧ (∀ gs ∈ ul, gs.length < 2 ^ 6 ∧ ∀ g ∈ gs, g.raw < 2 ^ 30)
      ∧ (∀ f ∈ pr, ValidType3 MmType34ElemIdUl.Proprietary f) := hv
  obtain ⟨hgrr, hul, hpr⟩ := hv
  replace ho : grr.isSome = true ∨ ul.isSome = true ∨ pr.isSome = true := ho
  have hopt : (grr.isSome || ul.isSome || pr.isSome) = true := by
    rcases ho with h | h | h <;> simp [h]
  have hE : encodeBits ⟨r, md, grr, ul, pr⟩
      = natToBits 4 7 ++ ([r, md] ++ (true :: (grr.elim [] type3BlockBits
          ++ (ul.elim [] uplinkBlockBits ++ (pr.elim [] type3BlockBits ++ [false]))))) := by
    rw [encodeBits]
    simp only [MmPduTypeUl.UAttachDetachGroupIdentityRaw, hopt, reduceIte,
      List.append_assoc]
  have hrem0 : (⟨encodeBits ⟨r, md, grr, ul, pr⟩, 0⟩ : BitBuffer).rem
      = natToBits 4 7 ++ (r :: (md :: (true :: (grr.elim [] type3BlockBits
          ++ (ul.elim [] uplinkBlockBits ++ (pr.elim [] type3BlockBits ++ [false])))))) := by
    show encodeBits ⟨r, md, grr, ul, pr⟩ = _
    rw [hE]
    rfl
  have e1 : (⟨encodeBits ⟨r, md, grr, ul, pr⟩, 0⟩ : BitBuffer).read_field 4 ("pdu_type")
      = .ok 7 ⟨encodeBits ⟨r, md, grr, ul, pr⟩, 4⟩ := by
    rw [BitBuffer.read_field, BitBuffer.read_bits_of_rem hrem0 (by norm_num)]
    rfl
  have hrem4 : (⟨encodeBits ⟨r, md, grr, ul, pr⟩, 4⟩ : BitBuffer).rem
      = r :: (md :: (true :: (grr.elim [] type3BlockBits
          ++ (ul.elim [] uplinkBlockBits ++ (pr.elim [] type3BlockBits ++ [false]))))) :=
    BitBuffer.rem_of_append hrem0
  have e2 : (⟨encodeBits ⟨r, md, grr, ul, pr⟩, 4⟩ : BitBuffer).read_field 1
        ("group_identity_report")
      = .ok (cond r 1 0) ⟨encodeBits ⟨r, md, grr, ul, pr⟩, 5⟩ := by
    rw [BitBuffer.read_field, BitBuffer.read_bits_cons hrem4]
    rfl
  have hrem5 : (⟨encodeBits ⟨r, md, grr, ul, pr⟩, 5⟩ : BitBuffer).rem
      = md :: (true :: (grr.elim [] type3BlockBits
          ++ (ul.elim [] uplinkBlockBits ++ (pr.elim [] type3BlockBits ++ [false])))) := by
    have h : (⟨encodeBits ⟨r, md, grr, ul, pr⟩, 5⟩ : BitBuffer).rem
        = ((⟨encodeBits ⟨r, md, grr, ul, pr⟩, 4⟩ : BitBuffer).seek_rel 1).rem := rfl
    rw [h, BitBuffer.rem_seek_rel, hrem4]
    rfl
  have e3 : (⟨encodeBits ⟨r, md, grr, ul, pr⟩, 5⟩ : BitBuffer).read_field 1
        ("group_identity_attach_detach_mode")
      = .ok (cond md 1 0) ⟨encodeBits ⟨r, md, grr, ul, pr⟩, 6⟩ := by
    rw [BitBuffer.read_field, BitBuffer.read_bits_cons hrem5]
    rfl
  have hrem6 : (⟨encodeBits ⟨r, md, grr, ul, pr⟩, 6⟩ : BitBuffer).rem
      = true :: (grr.elim [] type3BlockBits
          ++ (ul.elim [] uplinkBlockBits ++ (pr.elim [] type3BlockBits ++ [false]))) := by
    have h : (⟨encodeBits ⟨r, md, grr, ul, pr⟩, 6⟩ : BitBuffer).rem
        = ((⟨encodeBits ⟨r, md, grr, ul, pr⟩, 5⟩ : BitBuffer).seek_rel 1).rem := rfl
    rw [h, BitBuffer.rem_seek_rel, hrem5]
    rfl
  have e4 : delimiters.read_obit (⟨encodeBits ⟨r, md, grr, ul, pr⟩, 6⟩ : BitBuffer)
      = .ok true ⟨encodeBits ⟨r, md, grr, ul, pr⟩, 7⟩ := by
    rw [delimiters.read_obit, BitBuffer.read_field, BitBuffer.read_bits_cons hrem6]
    rfl
  have hrem7 : (⟨encodeBits ⟨r, md, grr, ul, pr⟩, 7⟩ : BitBuffer).rem
      = grr.elim [] type3BlockBits
          ++ (ul.elim [] uplinkBlockBits ++ (pr.elim [] type3BlockBits ++ [false])) := by
    have h : (⟨encodeBits ⟨r, md, grr, ul, pr⟩, 7⟩ : BitBuffer).rem
        = ((⟨encodeBits ⟨r, md, grr, ul, pr⟩, 6⟩ : BitBuffer).seek_rel 1).rem := rfl
    rw [h, BitBuffer.rem_seek_rel, hrem6]
    rfl
  have hstep3a := type3_opt_step (⟨encodeBits ⟨r, md, grr, ul, pr⟩, 7⟩ : BitBuffer)
    MmType34ElemIdUl.GroupReportResponse (by decide) grr
    (ul.elim [] uplinkBlockBits ++ (pr.elim [] type3BlockBits ++ [false])) hgrr hrem7
    (by
      intro _
      cases ul with
      | some gs =>
        exact Or.inr ⟨MmType34ElemIdUl.GroupIdentityUplink,
          natToBits 11 (6 + 30 * gs.length) ++ natToBits 6 gs.length
            ++ (gs.map (fun g => natToBits 30 g.raw)).flatten
            ++ (pr.elim [] type3BlockBits ++ [false]),
          by
            show uplinkBlockBits gs ++ (pr.elim [] type3BlockBits ++ [false]) = _
            rw [uplinkBlockBits]
            simp [List.append_assoc],
          by decide, by decide⟩
      | none =>
        cases pr with
        | some f =>
          obtain ⟨hft, hL, hD⟩ := hpr f rfl
          refine Or.inr ⟨f.field_type,
            natToBits 11 f.len ++ natToBits f.len f.data ++ [false],
            ?_, by rw [hft]; decide, by rw [hft]; decide⟩
          show type3BlockBits f ++ [false] = _
          rw [type3BlockBits]
          simp [List.append_assoc]
        | none => exact Or.inl ⟨[], rfl⟩)
  have hstep4 := type4_opt_step
    ((⟨encodeBits ⟨r, md, grr, ul, pr⟩, 7⟩ : BitBuffer).seek_rel
      (grr.elim [] type3BlockBits).length)
    ul (pr.elim [] type3BlockBits ++ [false]) hul hstep3a.2
    (by
      intro _
      cases pr with
      | some f =>
        obtain ⟨hft, hL, hD⟩ := hpr f rfl
        refine Or.inr ⟨f.field_type,
          natToBits 11 f.len ++ natToBits f.len f.data ++ [false],
          ?_, by rw [hft]; decide, by rw [hft]; decide⟩
        show type3BlockBits f ++ [false] = _
        rw [type3BlockBits]
        simp [List.append_assoc]
      | none => exact Or.inl ⟨[], rfl⟩)
  have hstep3b := type3_opt_step
    (((⟨encodeBits ⟨r, md, grr, ul, pr⟩, 7⟩ : BitBuffer).seek_rel
        (grr.elim [] type3BlockBits).length).seek_rel
      (ul.elim [] uplinkBlockBits).length)
    MmType34ElemIdUl.Proprietary (by decide) pr ([false]) hpr hstep4.2
    (fun _ => Or.inl ⟨[], rfl⟩)
  have etr : ((((⟨encodeBits ⟨r, md, grr, ul, pr⟩, 7⟩ : BitBuffer).seek_rel
          (grr.elim [] type3BlockBits).length).seek_rel
        (ul.elim [] uplinkBlockBits).length).seek_rel
      (pr.elim [] type3BlockBits).length).read_field 1 ("trailing_obit")
      = .ok 0 (((((⟨encodeBits ⟨r, md, grr, ul, pr⟩, 7⟩ : BitBuffer).seek_rel
          (grr.elim [] type3BlockBits).length).seek_rel
        (ul.elim [] uplinkBlockBits).length).seek_rel
      (pr.elim [] type3BlockBits).length).seek_rel 1) := by
    rw [BitBuffer.read_field, BitBuffer.read_bits_cons hstep3b.2]
    rfl
  rw [UAttachDetachGroupIdentity.from_bitbuf]
  simp only [e1, MmPduTypeUl.UAttachDetachGroupIdentityRaw, ne_eq, not_true, reduceIte,
    e2, e3, e4]
  simp only [hstep3a.1]
  simp only [hstep4.1]
  simp only [hstep3b.1]
  simp only [etr]
  simp only [show ((0 : Nat) == 1) = false from rfl, Bool.false_eq_true, reduceIte]
  simp only [bne_cond_zero]
  congr 1
  show (⟨encodeBits ⟨r, md, grr, ul, pr⟩,
      7 + (grr.elim [] type3BlockBits).length + (ul.elim [] uplinkBlockBits).length
        + (pr.elim [] type3BlockBits).length + 1⟩ : BitBuffer)
    = ⟨encodeBits ⟨r, md, grr, ul, pr⟩, (encodeBits ⟨r, md, grr, ul, pr⟩).length⟩
  congr 1
  rw [hE]
  simp only [List.length_append, List.length_cons, List.length_nil, natToBits_length]
  omega

/-- C1 (amended): for every wire `B` that is the declared-order encoding
of a canonical-range message with at least one optional field present,
decoding `B` with `from_bitbuf` succeeds with the cursor at the end of
`B`, and re-encoding the decoded value with `to_bitbuf` reproduces `B`
bit-for-bit. -/
theorem roundtrip_declared_order (M : UAttachDetachGroupIdentity) (B : List Bool)
    (hv : ValidMsg M) (ho : hasOptional M) (hB : B = encodeBits M) :
    ∃ M2, UAttachDetachGroupIdentity.from_bitbuf ⟨B, 0⟩ = .ok M2 ⟨B, B.length⟩
      ∧ UAttachDetachGroupIdentity.to_bitbuf M2 ⟨[], 0⟩ = .ok () ⟨B, B.length⟩ := by
  subst hB
  exact ⟨M, from_bitbuf_encodeBits M hv ho, to_bitbuf_emits M⟩

/-- C1 witness: the round trip at the declared-order encoding of the
test-vector message. -/
theorem roundtrip_declared_order_witness :
    ∃ M2, UAttachDetachGroupIdentity.from_bitbuf ⟨encodeBits testMsg, 0⟩
        = .ok M2 ⟨encodeBits testMsg, (encodeBits testMsg).length⟩
      ∧ UAttachDetachGroupIdentity.to_bitbuf M2 ⟨[], 0⟩
        = .ok () ⟨encodeBits testMsg, (encodeBits testMsg).length⟩ :=
  roundtrip_declared_order testMsg (encodeBits testMsg)
    ⟨fun f hf => by simp [testMsg] at hf,
     fun gs hgs => by
       have hgs2 : [(⟨269305456⟩ : GroupIdentityUplink)] = gs := by simpa [testMsg] using hgs
       subst hgs2
       exact ⟨by decide, by decide⟩,
     fun f hf => by simp [testMsg] at hf⟩
    (Or.inr (Or.inl rfl)) rfl
